import Mathlib

/-!
Verification development for the HTML-to-structured-document content extractor
of the `mtv2` utility suite.

The definitions below are a shallow embedding of the extractor logic found in
`src/workers/content_extractor_worker.py` (the canonical, dedicated extractor),
together with the variants it is compared against:
`src/workers/crawler_worker.py` (`_process_table`) and
`src/simulate_full_extraction.py` (the simulation walker, namespace `Sim`).

Modelling conventions:
* A BeautifulSoup tag is a `Node.elem` with tag name, class-token list,
  attribute list and ordered children; a `NavigableString` is `Node.text`.
* A python-docx document is the ordered list of emitted `Block`s; run-level
  styling (bold/italic/underline, font size in points, RGB color) is carried on
  `Run`.  Paragraph alignment (only used for the cosmetic title line) is not
  modelled.
* Python string operations are modelled over `List Char`: `str.strip` as
  `strTrim` (ASCII whitespace), `str.split(sep)` / `sep.join` as
  `splitSlash` / `joinSlash`, substring containment (`in`) as `listHasSub`.
* `urllib.parse.urljoin` is modelled by `urljoinOrigin` for the base URLs the
  worker constructs (`scheme://host` with empty path, query and fragment),
  following CPython's algorithm: scheme detection, network-path (`//`)
  references, dot-segment resolution and dropping of empty query/fragment.
  Path parameters (`;`, split by `urlparse` from the last path segment) are
  not modelled.
-/

namespace MTV2

/-! ### Reducible string primitives

Python string operations are modelled by structurally recursive functions
over the character list of a `String` (the overloads in the core library are
implemented over byte positions, which a proof cannot evaluate). -/

/-- Boolean test that `pre` is an initial segment of `l`. -/
def listHasPre {α : Type} [DecidableEq α] : List α → List α → Bool
  | [], _ => true
  | _ :: _, [] => false
  | a :: as, b :: bs => a = b && listHasPre as bs

/-- Boolean test that `needle` occurs as a contiguous segment of `hay`
(model of Python's substring operator `in`). -/
def listHasSub {α : Type} [DecidableEq α] (needle : List α) : List α → Bool
  | [] => needle.isEmpty
  | b :: bs => listHasPre needle (b :: bs) || listHasSub needle bs

/-- Model of Python `str.startswith`. -/
def strStarts (s pre : String) : Bool :=
  listHasPre pre.toList s.toList

/-- Model of Python `str.strip()` (ASCII whitespace). -/
def strTrim (s : String) : String :=
  ⟨((s.toList.dropWhile Char.isWhitespace).reverse.dropWhile Char.isWhitespace).reverse⟩

/-- Model of Python `'sep'.join`. -/
def strIntercalate (sep : String) : List String → String
  | [] => ""
  | [x] => x
  | x :: xs => x ++ sep ++ strIntercalate sep xs

/-- Model of Python `s[:n]` (character count). -/
def strTake (s : String) (n : Nat) : String :=
  ⟨s.toList.take n⟩

/-- Model of Python `str.lower` over ASCII. -/
def strLower (s : String) : String :=
  ⟨s.toList.map Char.toLower⟩

/-- Replacement engine of `strReplace`: `skip` characters of a match already
consumed are passed over, otherwise the pattern is searched at the current
position (leftmost, non-overlapping, as Python `str.replace`). -/
def replaceGo (pat repl : List Char) : Nat → List Char → List Char
  | _, [] => []
  | Nat.succ k, _ :: rest => replaceGo pat repl k rest
  | 0, c :: rest =>
    if listHasPre pat (c :: rest) then repl ++ replaceGo pat repl (pat.length - 1) rest
    else c :: replaceGo pat repl 0 rest

/-- Model of Python `str.replace` for a nonempty pattern (every pattern used
by the extractor is a nonempty literal). -/
def strReplace (s pat repl : String) : String :=
  ⟨replaceGo pat.toList repl.toList 0 s.toList⟩

/-- An HTML tree node: an element (tag, class tokens, attributes, children) or
a raw text fragment, as produced by the HTML parser. -/
inductive Node where
  | elem (tag : String) (classes : List String) (attrs : List (String × String)) (children : List Node)
  | text (s : String)
deriving Repr

def Node.tagName : Node → String
  | .elem t _ _ _ => t
  | .text _ => ""

def Node.classList : Node → List String
  | .elem _ cs _ _ => cs
  | .text _ => []

def Node.childNodes : Node → List Node
  | .elem _ _ _ ch => ch
  | .text _ => []

/-- Attribute lookup, modelling `element.get(key)` (first binding wins). -/
def lookupAttr (attrs : List (String × String)) (k : String) : Option String :=
  (attrs.find? (fun p => p.1 = k)).map Prod.snd

def Node.getAttr : Node → String → Option String
  | .elem _ _ attrs _, k => lookupAttr attrs k
  | .text _, _ => none

mutual
/-- All descendant text fragments of a node, in document order
(BeautifulSoup's `.strings`).  A text node yields itself. -/
def Node.rawStrings : Node → List String
  | .text s => [s]
  | .elem _ _ _ ch => rawStringsList ch
def rawStringsList : List Node → List String
  | [] => []
  | n :: rest => n.rawStrings ++ rawStringsList rest
end

/-- Model of `element.get_text()`: concatenation of all descendant strings. -/
def Node.getText (n : Node) : String :=
  String.join n.rawStrings

/-- Model of `element.get_text(strip=True)`: each descendant string stripped,
empty results dropped, concatenated without separator. -/
def Node.getTextStrip (n : Node) : String :=
  String.join (((n.rawStrings).map strTrim).filter (fun s => s ≠ ""))

/-- Model of `element.get_text(separator=' ', strip=True)`. -/
def Node.getTextSepStrip (n : Node) : String :=
  strIntercalate " " (((n.rawStrings).map strTrim).filter (fun s => s ≠ ""))

/-- Model of BeautifulSoup's `.string`: the single string of a tag with exactly
one child, recursively; `none` when the tag has zero or several children. -/
def Node.stringProp : Node → Option String
  | .text s => some s
  | .elem _ _ _ [c] => c.stringProp
  | .elem _ _ _ _ => none

mutual
/-- All element nodes in a subtree (including its root), in document
(pre-)order, each paired with its chain of ancestors (immediate parent
first).  `anc` is the ancestor chain above the visited node. -/
def elemsWithAnc (anc : List Node) : Node → List (Node × List Node)
  | .text _ => []
  | .elem t cs a ch =>
    (Node.elem t cs a ch, anc) :: elemsWithAncList (Node.elem t cs a ch :: anc) ch
def elemsWithAncList (anc : List Node) : List Node → List (Node × List Node)
  | [] => []
  | n :: rest => elemsWithAnc anc n ++ elemsWithAncList anc rest
end

/-- Element descendants of `n` (excluding `n` itself, like `find_all`), in
document order, paired with ancestor chains whose last entry is `n`. -/
def Node.descendantsAnc (n : Node) : List (Node × List Node) :=
  elemsWithAncList [n] n.childNodes

/-- Element descendants of `n` (excluding `n` itself), in document order. -/
def Node.descendants (n : Node) : List Node :=
  (n.descendantsAnc).map Prod.fst

/-- Model of `element.find_all(tags)` for a set of tag names. -/
def findAllTags (tags : List String) (n : Node) : List Node :=
  (n.descendants).filter (fun d => d.tagName ∈ tags)

/-- Model of `element.find(tag)`. -/
def findFirstTag (n : Node) (tag : String) : Option Node :=
  (n.descendants).find? (fun d => d.tagName = tag)

/-- Model of `element.find(tags)` for a set of tag names. -/
def findFirstTags (n : Node) (tags : List String) : Option Node :=
  (n.descendants).find? (fun d => d.tagName ∈ tags)

/-- Model of `element.find(class_=c)`: first descendant carrying class `c`. -/
def findFirstClass (n : Node) (c : String) : Option Node :=
  (n.descendants).find? (fun d => c ∈ d.classList)

/-! ### URL resolution (`_make_absolute` / `urllib.parse.urljoin`) -/

/-- Split a character list at the first occurrence of `sep`; `none` when `sep`
does not occur. -/
def splitFirstAux (sep : Char) : List Char → Option (List Char × List Char)
  | [] => none
  | c :: cs =>
    if c = sep then some ([], cs)
    else (splitFirstAux sep cs).map (fun p => (c :: p.1, p.2))

/-- Split a string at the first occurrence of `sep`. -/
def splitFirst (sep : Char) (s : String) : String × Option String :=
  match splitFirstAux sep s.toList with
  | none => (s, none)
  | some (a, b) => (⟨a⟩, some ⟨b⟩)

/-- Characters allowed in a URL scheme after the initial letter. -/
def schemeChar (c : Char) : Bool :=
  c.isAlphanum || c = '+' || c = '-' || c = '.'

/-- Scheme detection of `urllib.parse.urlsplit`: a leading letter followed by
scheme characters up to the first `:`.  Returns the lower-cased scheme and the
remainder. -/
def extractScheme (s : String) : Option (String × String) :=
  match splitFirst ':' s with
  | (before, some rest) =>
    if before ≠ "" ∧ (before.toList.headD ' ').isAlpha ∧ before.toList.all schemeChar then
      some (strLower before, rest)
    else none
  | (_, none) => none

/-- Python `path.split('/')` over characters. -/
def splitSlashAux (cur : List Char) : List Char → List (List Char)
  | [] => [cur.reverse]
  | c :: rest =>
    if c = '/' then cur.reverse :: splitSlashAux [] rest
    else splitSlashAux (c :: cur) rest

def splitSlash (l : List Char) : List (List Char) :=
  splitSlashAux [] l

/-- Python `'/'.join(segments)` over characters. -/
def joinSlash : List (List Char) → List Char
  | [] => []
  | [x] => x
  | x :: xs => x ++ '/' :: joinSlash xs

/-- CPython `urljoin` middle-segment cleanup for relative paths:
`segments[1:-1] = filter(None, segments[1:-1])`. -/
def filterMidAux : List (List Char) → List (List Char)
  | [] => []
  | [y] => [y]
  | y :: rest => if y = [] then filterMidAux rest else y :: filterMidAux rest

def filterMid : List (List Char) → List (List Char)
  | [] => []
  | [x] => [x]
  | x :: rest => x :: filterMidAux rest

/-- One step of CPython's `urljoin` dot-segment resolution loop (`..` pops
when more than the leading segment is present, `.` is dropped). -/
def dotStep (acc : List (List Char)) (seg : List Char) : List (List Char) :=
  if seg = ['.', '.'] then (if 2 ≤ acc.length then acc.dropLast else acc)
  else if seg = ['.'] then acc
  else acc ++ [seg]

/-- CPython `urljoin` dot-segment resolution: the loop, plus a trailing empty
segment when the reference ends in a relative-dir segment. -/
def removeDotSegs (segs : List (List Char)) : List (List Char) :=
  let resolved := segs.foldl dotStep []
  match segs.getLast? with
  | some last => if last = ['.'] ∨ last = ['.', '.'] then resolved ++ [[]] else resolved
  | none => resolved

/-- Re-attach query and fragment, dropping them when empty (as `urlunsplit`
does). -/
def reAddQF (query frag : Option String) : String :=
  (match query with
   | some q => if q = "" then "" else "?" ++ q
   | none => "") ++
  (match frag with
   | some f => if f = "" then "" else "#" ++ f
   | none => "")

/-- Split a network-path reference body (after `//`) into netloc and path. -/
def splitNetloc (s : String) : String × String :=
  match splitFirstAux '/' s.toList with
  | none => (s, "")
  | some (a, b) => (⟨a⟩, ⟨'/' :: b⟩)

/-- Join a scheme-free reference against the base `scheme://host` (empty base
path), following CPython's `urljoin`. -/
def urljoinNoScheme (scheme host : String) (ref : String) : String :=
  let fragSplit := splitFirst '#' ref
  let querySplit := splitFirst '?' fragSplit.1
  let core := querySplit.1
  let qf := reAddQF querySplit.2 fragSplit.2
  let netlocPath : Option String × String :=
    if strStarts core "//" then
      let nl := splitNetloc ⟨core.toList.drop 2⟩
      (if nl.1 = "" then none else some nl.1, nl.2)
    else (none, core)
  match netlocPath.1 with
  | some nl => scheme ++ "://" ++ nl ++ netlocPath.2 ++ qf
  | none =>
    let path := netlocPath.2
    if path = "" then scheme ++ "://" ++ host ++ qf
    else
      let segs :=
        if strStarts path "/" then splitSlash path.toList
        else filterMid (splitSlash path.toList)
      let joined := joinSlash (removeDotSegs segs)
      let joinedStr : String := if joined = [] then "/" else ⟨joined⟩
      let finalPath :=
        if strStarts joinedStr "/" then joinedStr else "/" ++ joinedStr
      scheme ++ "://" ++ host ++ finalPath ++ qf

/-- Model of `urllib.parse.urljoin(scheme ++ "://" ++ host, ref)`:  a reference
carrying a foreign scheme is returned unchanged; a reference with the base's
scheme is resolved like a scheme-free one. -/
def urljoinOrigin (scheme host : String) (ref : String) : String :=
  match extractScheme ref with
  | some (sch, rest) =>
    if sch = scheme then urljoinNoScheme scheme host rest else ref
  | none => urljoinNoScheme scheme host ref

/-- The per-extraction context: the origin captured at construction time,
`base_url = scheme ++ "://" ++ host`. -/
structure Ctx where
  scheme : String
  host : String
deriving Repr, DecidableEq

/-- Model of `ContentExtractorWorker._make_absolute`. -/
def makeAbsolute (ctx : Ctx) (url : String) : String :=
  if url = "" then ""
  else if strStarts url "http" then url
  else urljoinOrigin ctx.scheme ctx.host url

/-! ### Output document model -/

/-- A styled run inside a paragraph or table cell (python-docx `Run`).
`size` is the font size in points, `color` an RGB triple. -/
structure Run where
  text : String
  bold : Bool := false
  italic : Bool := false
  underline : Bool := false
  size : Option Nat := none
  color : Option (Nat × Nat × Nat) := none
deriving Repr, DecidableEq

/-- A table cell: the runs of its (single) paragraph.  A never-assigned cell
has no runs; `cell.text = s` yields a single unstyled run. -/
abbrev Cell := List Run

/-- One typed block of the output document, in emission order. -/
inductive Block where
  | heading (level : Nat) (runs : List Run)
  | para (style : Option String) (runs : List Run)
  | table (style : String) (rows : List (List Cell))
deriving Repr, DecidableEq

def plainRun (s : String) : Run := { text := s }

/-- Model of `doc.add_paragraph(text)`: a run is added only for nonempty text. -/
def plainPara (s : String) : Block :=
  .para none (if s = "" then [] else [plainRun s])

def emptyPara : Block := .para none []

/-- Model of `doc.add_heading(text, level)`. -/
def headingText (level : Nat) (s : String) : Block :=
  .heading level (if s = "" then [] else [plainRun s])

/-- Text Block marker paragraph (bold, 9pt, dark green). -/
def tbMarkerBlock (n : Nat) : Block :=
  .para none [{ text := "[COMPONENT: Text Block " ++ toString n ++ "]",
                bold := true, size := some 9, color := some (0, 100, 0) }]

/-- Component marker paragraph (italic, 9pt, gray), used for Text Image and
generic components. -/
def compMarkerBlock (nm : String) : Block :=
  .para none [{ text := "[COMPONENT: " ++ nm ++ "]",
                italic := true, size := some 9, color := some (100, 100, 100) }]

/-- Text Image marker paragraph carrying its sequence number. -/
def tiMarkerBlock (n : Nat) : Block :=
  compMarkerBlock ("Text Image " ++ toString n)

/-- The two counters of one extraction call. -/
structure Counters where
  tb : Nat
  ti : Nat
deriving Repr, DecidableEq

/-! ### Component classifier -/

/-- Model of Python `str.title()` over ASCII: a letter is upper-cased after a
non-letter and lower-cased after a letter. -/
def titleCaseAux : Bool → List Char → List Char
  | _, [] => []
  | prevAlpha, c :: cs =>
    (if c.isAlpha then (if prevAlpha then c.toLower else c.toUpper) else c) ::
      titleCaseAux c.isAlpha cs

def titleCase (s : String) : String :=
  ⟨titleCaseAux false s.toList⟩

/-- First-match-wins component detection over the class-token list
(`component--` tokens humanized, hero sentinels mapped to fixed labels). -/
def componentNameOf : List String → Option String
  | [] => none
  | c :: rest =>
    if strStarts c "component--" then
      some (titleCase (strReplace (strReplace c "component--" "") "-" " "))
    else if c = "article--hero" then some "Hero Article"
    else if c = "hero--image" then some "Hero Image"
    else componentNameOf rest

/-- The classification actually used by the walker: only container tags are
classified, and a humanized name that is the empty string is falsy in Python
(`if component_name:`), so it does not count as a match. -/
def classifyComponent (tag : String) (classes : List String) : Option String :=
  if tag ∈ ["div", "section", "article"] then
    match componentNameOf classes with
    | some nm => if nm = "" then none else some nm
    | none => none
  else none

/-! ### Generic table rendering (`_process_table`) -/

/-- The `<tr>` descendants of a table element (recursive `find_all('tr')`). -/
def trRows (t : Node) : List Node :=
  findAllTags ["tr"] t

/-- The cell descendants of a row (`row.find_all(['td', 'th'])`). -/
def rowCells (r : Node) : List Node :=
  findAllTags ["td", "th"] r

/-- Column count: the maximum cell count over all rows. -/
def colCount (t : Node) : Nat :=
  ((trRows t).map (fun r => (rowCells r).length)).foldl Nat.max 0

/-- Model of `ContentExtractorWorker._process_table`.  The created grid's
cells are empty; `cells[j].text = ...` is assigned for each actual cell of the
row (its index is always below the column count), so row `i` holds the
stripped text of row `i`'s cells followed by unassigned (empty) cells. -/
def processTable (t : Node) : List Block :=
  let rows := trRows t
  if rows.isEmpty then []
  else
    [Block.table "Light Grid Accent 1"
      (rows.map (fun r =>
        (List.range (colCount t)).map (fun j =>
          match (rowCells r)[j]? with
          | some c => [plainRun c.getTextStrip]
          | none => [])))]

/-- Model of `CrawlerWorker._process_table` (`crawler_worker.py`): same layout,
but after assigning a cell's text, runs of `<th>` cells are made bold. -/
def crawlerProcessTable (t : Node) : List Block :=
  let rows := trRows t
  if rows.isEmpty then []
  else
    [Block.table "Light Grid Accent 1"
      (rows.map (fun r =>
        (List.range (colCount t)).map (fun j =>
          match (rowCells r)[j]? with
          | some c => [{ text := c.getTextStrip, bold := c.tagName == "th" }]
          | none => [])))]

/-! ### Inline-run processor (`_process_children_with_links`) -/

/-- Runs produced for one direct child, parameterised by the URL resolver
(the dedicated extractor and the simulation script resolve differently). -/
def childRunsOf (mkAbs : String → String) (child : Node) : List Run :=
  match child with
  | .text s => if s = "" then [] else [plainRun s]
  | .elem tag _ attrs _ =>
    if tag = "a" then
      let linkUrl := mkAbs ((lookupAttr attrs "href").getD "")
      { text := child.getText, underline := true, color := some (0, 0, 255) } ::
        (if linkUrl = "" then []
         else [{ text := " (" ++ linkUrl ++ ")", underline := true, color := some (0, 0, 255) }])
    else if tag = "strong" ∨ tag = "b" then [{ text := child.getText, bold := true }]
    else if tag = "em" ∨ tag = "i" then [{ text := child.getText, italic := true }]
    else [plainRun child.getText]

/-- Model of `_process_children_with_links`: runs for every direct child. -/
def childRuns (mkAbs : String → String) (el : Node) : List Run :=
  (el.childNodes).flatMap (childRunsOf mkAbs)

/-! ### Component renderers (`_process_special_component`) -/

/-- Hero Article: category paragraph, then a 2-column image/alt table. -/
def heroArticleBlocks (ctx : Ctx) (el : Node) : List Block :=
  let catBlocks :=
    match findFirstClass el "hero--article-category" with
    | some catElem =>
      let catUrl :=
        match findFirstTag catElem "a" with
        | some link => makeAbsolute ctx ((link.getAttr "href").getD "")
        | none => ""
      [Block.para none
        ([{ text := "Article category: " ++ catElem.getTextStrip, bold := true }] ++
         (if catUrl = "" then []
          else [{ text := " - " ++ catUrl, italic := true }]))]
    | none => []
  let imgData :=
    match findFirstClass el "hero--image" with
    | some heroImg =>
      match findFirstTag heroImg "img" with
      | some img =>
        (makeAbsolute ctx ((img.getAttr "src").getD ""), strTrim ((img.getAttr "alt").getD ""))
      | none => ("No image found", "")
    | none => ("No image found", "")
  catBlocks ++
  [Block.table "Table Grid"
    [[[{ text := "IMAGE:\n", bold := true }, plainRun imgData.1],
      [{ text := "Alt Text: ", bold := true },
       plainRun (if imgData.2 = "" then "No Alt Text" else imgData.2)]]],
   emptyPara]

/-- The raw `href` of a collected anchor (`link.get('href', '')`). -/
def hrefOf (p : Node × List Node) : String :=
  (p.1.getAttr "href").getD ""

/-- One step of the Articles List link-collection loop: skip category-parented
anchors, then keep the anchor when its raw href is nonempty and unseen
(`seen_urls`). -/
def articleLinksStep (acc : List (Node × List Node) × List String)
    (p : Node × List Node) : List (Node × List Node) × List String :=
  let parentClasses := ((p.2.headD (Node.text "")).classList)
  if "field--name-field-article-category" ∈ parentClasses then acc
  else
    let url := hrefOf p
    if url ≠ "" ∧ url ∉ acc.2 then (acc.1 ++ [p], acc.2 ++ [url]) else acc

/-- Articles List link collection: all anchor descendants, excluding anchors
whose immediate parent carries the article-category field class, keeping the
first anchor per raw `href` and dropping empty/missing `href`s.  Each kept
anchor is paired with its ancestor chain (for the title lookup). -/
def articleLinksOf (el : Node) : List (Node × List Node) :=
  (((el.descendantsAnc).filter (fun p => p.1.tagName = "a")).foldl
    articleLinksStep ([], [])).1

/-- Title lookup for one kept anchor: walk the ancestors from the immediate
parent up to (but excluding) the component root; the first ancestor containing
a `field--name-title` descendant supplies the title.  (BeautifulSoup's
`parent != element` comparison is structural, but a strict descendant can
never be structurally equal to the whole component, so stopping at the chain's
last entry — the root — is faithful.) -/
def titleWalk (dflt : String) : List Node → String
  | [] => dflt
  | p :: rest =>
    match findFirstClass p "field--name-title" with
    | some tf => tf.getTextStrip
    | none => titleWalk dflt rest

def articleTitleOf (p : Node × List Node) : String :=
  titleWalk (p.1.getTextStrip) (p.2.dropLast)

/-- Articles List: a Title/URL table (header row, bold component-title row,
one data row per kept anchor), followed by a spacer paragraph.  With no kept
anchor, only the spacer is emitted. -/
def articlesListBlocks (ctx : Ctx) (el : Node) : List Block :=
  let titleText :=
    match findFirstTags el ["h2", "h3", "h4"] with
    | some t => t.getTextStrip
    | none => "Articles List"
  let links := articleLinksOf el
  (if links.isEmpty then []
   else
    [Block.table "Light Grid Accent 1"
      ([[[{ text := "Title", bold := true }], [{ text := "URL", bold := true }]],
        [[{ text := "Component: " ++ titleText, bold := true }], [plainRun ""]]] ++
       links.map (fun p =>
         [[plainRun (articleTitleOf p)],
          [plainRun (makeAbsolute ctx ((p.1.getAttr "href").getD ""))]]))]) ++
  [emptyPara]

/-- Content tags collected below a Text Image table. -/
def tiContentTags : List String := ["p", "h2", "h3", "h4", "h5", "h6", "li"]

def headingLevelOf (tag : String) : Nat :=
  match tag.toList.get? 1 with
  | some c => if c.isDigit then c.toNat - 48 else 3
  | none => 3

/-- Class-pattern test for `re.compile(r'(summary|text|desc|body|content)')`:
the regex search succeeds on a tag when any class token contains one of the
five words. -/
def regexClassMatch (cs : List String) : Bool :=
  cs.any (fun c =>
    ["summary", "text", "desc", "body", "content"].any
      (fun w => listHasSub w.toList c.toList))

/-- One step of the tier-1 Text Image content loop: skip tags inside a
`hero--article-category` ancestor, apply the `seen_texts` deduplication and
the length filter (> 2), keep headings as headings. -/
def tiTier1Step (acc : List Block × List String) (p : Node × List Node) :
    List Block × List String :=
  if p.2.any (fun a => "hero--article-category" ∈ a.classList) then acc
  else
    let t := p.1.getTextStrip
    if t ≠ "" ∧ t.length > 2 ∧ t ∉ acc.2 then
      (acc.1 ++
        [if p.1.tagName ∈ ["h2", "h3", "h4", "h5", "h6"] then
           headingText (headingLevelOf p.1.tagName) t
         else plainPara t],
       acc.2 ++ [t])
    else acc

/-- Tier-1 Text Image content: paragraph/heading/list-item descendants, minus
those nested inside a `hero--article-category` ancestor, text-deduplicated
(`seen_texts`) and length-filtered (> 2).  Headings keep their level. -/
def tiTier1Blocks (el : Node) : List Block :=
  (((el.descendantsAnc).filter (fun p => p.1.tagName ∈ tiContentTags)).foldl
    tiTier1Step ([], [])).1

/-- One step of the tier-2 fallback loop: plain paragraph for unseen text
longer than 10. -/
def tiTier2Step (acc : List Block × List String) (n : Node) :
    List Block × List String :=
  let t := n.getTextStrip
  if t ≠ "" ∧ t.length > 10 ∧ t ∉ acc.2 then
    (acc.1 ++ [plainPara t], acc.2 ++ [t])
  else acc

/-- Tier-2 Text Image fallback (only when no tier-1 tag exists): descendants
whose classes match the summary/text/desc/body/content pattern, each kept as a
plain paragraph when its text is longer than 10 and unseen. -/
def tiTier2Blocks (el : Node) : List Block :=
  (((el.descendants).filter (fun n => regexClassMatch n.classList)).foldl
    tiTier2Step ([], [])).1

/-- Text Image: numbered marker, 2-column image/alt table, spacer, content
blocks, spacer. -/
def textImageBlocks (ctx : Ctx) (el : Node) (n : Nat) : List Block :=
  let imgCell :=
    [({ text := "Image Position: Left\n", bold := true } : Run)] ++
    (match findFirstTag el "img" with
     | some img =>
       [{ text := "IMAGE:\n", bold := true },
        plainRun (makeAbsolute ctx ((img.getAttr "src").getD ""))]
     | none => [{ text := "No Image", italic := true }])
  let alt :=
    match findFirstTag el "img" with
    | some img => strTrim ((img.getAttr "alt").getD "")
    | none => ""
  [tiMarkerBlock n,
   Block.table "Table Grid"
     [[imgCell,
       [{ text := "Alt Text: ", bold := true },
        plainRun (if alt = "" then "No Alt Text" else alt)]]],
   emptyPara] ++
  (if ((el.descendantsAnc).filter (fun p => p.1.tagName ∈ tiContentTags)).isEmpty
   then tiTier2Blocks el else tiTier1Blocks el) ++
  [emptyPara]

/-- Order-preserving first-occurrence deduplication (`dict.fromkeys`). -/
def dedupKeepFirst (l : List String) : List String :=
  l.foldl (fun acc s => if s ∈ acc then acc else acc ++ [s]) []

/-- Generic-component summary fragments: tier 1 = pattern-classed descendants
(excluding the category element) with text longer than 10; tier 2 (when tier 1
is empty) = all paragraph/heading descendants with nonempty text. -/
def genericTextParts (el : Node) : List String :=
  let tier1 :=
    ((el.descendants).filter
        (fun n => regexClassMatch n.classList ∧ "hero--article-category" ∉ n.classList)).filterMap
      (fun n =>
        let t := n.getTextStrip
        if t ≠ "" ∧ t.length > 10 then some t else none)
  if tier1.isEmpty then
    (findAllTags ["p", "h1", "h2", "h3", "h4", "h5", "h6"] el).filterMap
      (fun n =>
        let t := n.getTextStrip
        if t ≠ "" then some t else none)
  else tier1

/-- Generic component (all other kinds, including a bare Hero Image):
italic marker, then a 2-column image/summary table, then a spacer. -/
def genericComponentBlocks (ctx : Ctx) (el : Node) (nm : String) : List Block :=
  let imgOpt := findFirstTag el "img"
  let summary0 := strIntercalate "\n\n" (dedupKeepFirst (genericTextParts el))
  let summary := if summary0 = "" then strTake (el.getTextSepStrip) 500 else summary0
  [compMarkerBlock nm,
   Block.table "Table Grid"
     [[(match imgOpt with
        | some img =>
          [{ text := "IMAGE:\n", bold := true },
           plainRun (makeAbsolute ctx ((img.getAttr "src").getD ""))]
        | none => [{ text := "No Image", italic := true }]),
       [plainRun summary]]],
   emptyPara]

/-- Model of `ContentExtractorWorker._process_special_component`: dispatch on
the humanized component name; only Text Image touches the counters. -/
def processSpecialComponent (ctx : Ctx) (cnt : Counters) (el : Node) (nm : String) :
    List Block × Counters :=
  if nm = "Hero Article" then (heroArticleBlocks ctx el, cnt)
  else if nm = "Articles List" then (articlesListBlocks ctx el, cnt)
  else if nm = "Text Image" then
    (textImageBlocks ctx el (cnt.ti + 1), { cnt with ti := cnt.ti + 1 })
  else (genericComponentBlocks ctx el nm, cnt)

/-! ### Tree walker (`_process_element`) -/

/-- Tags never descended into. -/
def skipTags : List String := ["script", "style", "nav", "footer", "header", "noscript"]

/-- The Exclusion Set of class tokens (dedicated extractor). -/
def exclusionSet : List String :=
  ["hero--article-wrapper--items", "article-author-bottom",
   "nppe-feedback-article-form", "related-topics--label",
   "related-topics--links", "article--progressbar", "component--newsletter"]

/-- The fixed 7-token Text Block class combination. -/
def targetClasses : List String :=
  ["clearfix", "text-formatted", "field", "field--name-field-c-text",
   "field--type-text-long", "field--label-hidden", "field__item"]

mutual
/-- Model of `ContentExtractorWorker._process_element`: exclusion rules, Text
Block marker, component classification and dispatch, generic tag handling,
recursion into container children.  Returns the appended blocks and the
updated counters. -/
def processElement (ctx : Ctx) (cnt : Counters) (n : Node) : List Block × Counters :=
  match n with
  | .text _ => ([], cnt)
  | .elem tag classes attrs children =>
    if tag ∈ skipTags then ([], cnt)
    else if classes.any (fun c => c ∈ exclusionSet) then ([], cnt)
    else if lookupAttr attrs "id" = some "nppe-feedback-article-form" then ([], cnt)
    else
      let pre : List Block × Counters :=
        if targetClasses.all (fun c => c ∈ classes) then
          ([tbMarkerBlock (cnt.tb + 1)], { cnt with tb := cnt.tb + 1 })
        else ([], cnt)
      match classifyComponent tag classes with
      | some nm =>
        let r := processSpecialComponent ctx pre.2 (.elem tag classes attrs children) nm
        (pre.1 ++ r.1, r.2)
      | none =>
        if tag = "h1" then (pre.1, pre.2)
        else if tag ∈ ["h2", "h3", "h4", "h5", "h6"] then
          (pre.1 ++
            [Block.heading (headingLevelOf tag)
              (childRuns (makeAbsolute ctx) (.elem tag classes attrs children))],
           pre.2)
        else if tag = "p" then
          (pre.1 ++
            [Block.para none (childRuns (makeAbsolute ctx) (.elem tag classes attrs children))],
           pre.2)
        else if tag ∈ ["ul", "ol"] then
          (pre.1 ++
            (children.filter (fun c => c.tagName = "li")).map (fun li =>
              Block.para (some (if tag = "ul" then "List Bullet" else "List Number"))
                (childRuns (makeAbsolute ctx) li)),
           pre.2)
        else if tag = "table" then
          (pre.1 ++ processTable (.elem tag classes attrs children), pre.2)
        else
          let r := processChildren ctx pre.2 children
          (pre.1 ++ r.1, r.2)

/-- Recursion step over a container's children: tags recurse; direct text
fragments become paragraphs only when their trimmed length exceeds 20. -/
def processChildren (ctx : Ctx) (cnt : Counters) (l : List Node) : List Block × Counters :=
  match l with
  | [] => ([], cnt)
  | c :: rest =>
    match c with
    | .text s =>
      let pre := if (strTrim s).length > 20 then [plainPara (strTrim s)] else []
      let r := processChildren ctx cnt rest
      (pre ++ r.1, r.2)
    | .elem t cs a ch =>
      let r1 := processElement ctx cnt (.elem t cs a ch)
      let r2 := processChildren ctx r1.2 rest
      (r1.1 ++ r2.1, r2.2)
end

/-! ### Document assembly (`_save_to_docx` and the SEO metadata table) -/

/-- Model of `urlparse(url).path` for the URLs the worker handles: strip
fragment and query, strip the scheme, skip the authority after `//`. -/
def urlPathOf (url : String) : String :=
  let noFrag := (splitFirst '#' url).1
  let noQuery := (splitFirst '?' noFrag).1
  let rest :=
    match extractScheme noQuery with
    | some (_, r) => r
    | none => noQuery
  if strStarts rest "//" then (splitNetloc ⟨rest.toList.drop 2⟩).2 else rest

/-- Model of `_add_seo_metadata_table`: the SEO header paragraph and the
6-row metadata table. -/
def seoBlocks (url : String) (soup : Node) : List Block :=
  let metaTitle :=
    match findFirstTag soup "title" with
    | some t =>
      match t.stringProp with
      | some s => strTrim s
      | none => "No Meta Title"
    | none => "No Meta Title"
  let metaDesc :=
    match (soup.descendants).find?
        (fun n => n.tagName = "meta" ∧ n.getAttr "name" = some "description") with
    | some m => (m.getAttr "content").getD "No Meta Description"
    | none => "No Meta Description"
  let ogTitle :=
    match (soup.descendants).find?
        (fun n => n.tagName = "meta" ∧ n.getAttr "property" = some "og:title") with
    | some m => (m.getAttr "content").getD "No OG Title"
    | none => "No OG Title"
  let ogDesc :=
    match (soup.descendants).find?
        (fun n => n.tagName = "meta" ∧ n.getAttr "property" = some "og:description") with
    | some m => (m.getAttr "content").getD "No OG Description"
    | none => "No OG Description"
  let schemas :=
    (soup.descendants).filter
      (fun n => n.tagName = "script" ∧ n.getAttr "type" = some "application/ld+json")
  let schemaText :=
    if schemas.isEmpty then "No Schema"
    else
      let texts := schemas.filterMap (fun s =>
        match s.stringProp with
        | some str => if str = "" then none else some (strTrim str)
        | none => none)
      let joined := strIntercalate "\n---\n" texts
      if joined.length > 2000 then strTake joined 2000 ++ "...[truncated]" else joined
  [Block.para none
    [{ text := "SEO METADATA", bold := true, size := some 12, color := some (0, 112, 192) }],
   Block.table "Light Grid Accent 1"
     ([("Internal URL", urlPathOf url), ("Meta Title", metaTitle),
       ("Meta Description", metaDesc), ("OG Title", ogTitle),
       ("OG Description", ogDesc), ("Schema", schemaText)].map
       (fun pr => [[{ text := pr.1, bold := true }], [plainRun pr.2]]))]

/-- Model of the document-content part of `_save_to_docx`: header paragraphs,
one-time H1 extraction, counter reset, main-content walk, SEO table.
`incoming` is the worker's counter state at call time; the call resets it. -/
def saveToDocx (ctx : Ctx) (url : String) (soup : Node) (incoming : Counters) : List Block :=
  let reset : Counters := { incoming with tb := 0, ti := 0 }
  let header :=
    [Block.para none
      [{ text := "Source: " ++ url, bold := true, size := some 14, color := some (0, 112, 192) }],
     emptyPara]
  let h1Blocks :=
    match findFirstTag soup "h1" with
    | some h1 => [headingText 1 h1.getTextStrip, emptyPara]
    | none => []
  let mainBlocks :=
    match (findFirstTag soup "main").orElse (fun _ => findFirstTag soup "body") with
    | some mainC => (processElement ctx reset mainC).1
    | none => [plainPara "No main content found."]
  header ++ h1Blocks ++ mainBlocks ++ [emptyPara] ++ seoBlocks url soup

/-! ### The simulation-script walker (`simulate_full_extraction.py`) -/

namespace Sim

/-- Model of `SimulationCrawler._make_absolute` (site-specific simple join). -/
def makeAbsolute (url : String) : String :=
  if strStarts url "http" then url
  else if strStarts url "/" then "https://www.purina.fr" ++ url
  else url

/-- The simulation script's exclusion list (newsletter is checked separately). -/
def exclusions : List String :=
  ["hero--article-wrapper--items", "article-author-bottom",
   "nppe-feedback-article-form", "related-topics--label",
   "related-topics--links", "article--progressbar"]

def feedbackPhrase : String := "Aidez-nous à nous améliorer"

/-- Hero-field class pattern of the simulation's Hero Article summary. -/
def heroFieldsMatch (cs : List String) : Bool :=
  cs.any (fun c =>
    ["hero--title", "hero--subtitle", "field--name-title", "field--name-uid",
     "field--name-created"].any (fun w => listHasSub w.toList c.toList))

/-- Text fragments collected below the simulation's Text Image table
(deduplicated afterwards via `dedupKeepFirst`). -/
def tiParts (el : Node) : List String :=
  let tags := (el.descendantsAnc).filter (fun p => p.1.tagName ∈ tiContentTags)
  if tags.isEmpty then
    ((el.descendants).filter (fun n => regexClassMatch n.classList)).filterMap
      (fun n =>
        let t := n.getTextStrip
        if t ≠ "" ∧ t.length > 10 then some t else none)
  else
    (tags.filter (fun p => ¬ p.2.any (fun a => "hero--article-category" ∈ a.classList))).filterMap
      (fun p =>
        let t := p.1.getTextStrip
        if t ≠ "" ∧ t.length > 2 then some t else none)

/-- Summary fragments for the simulation's non-Text-Image components. -/
def stdParts (el : Node) (nm : String) : List String :=
  let hero :=
    if nm = "Hero Article" then
      ((el.descendants).filter (fun n => heroFieldsMatch n.classList)).map Node.getTextStrip
    else []
  let containers :=
    ((el.descendants).filter
        (fun n => regexClassMatch n.classList ∧ "hero--article-category" ∉ n.classList)).filterMap
      (fun n =>
        let t := n.getTextStrip
        if t ≠ "" ∧ t.length > 10 then some t else none)
  let parts := hero ++ containers
  if parts.isEmpty then
    (findAllTags ["p", "h1", "h2", "h3", "h4", "h5", "h6"] el).filterMap
      (fun n =>
        let t := n.getTextStrip
        if t ≠ "" then some t else none)
  else parts

/-- The simulation's Text Image body: image/alt table, spacer, and the junk-
cleaned summary as one paragraph. -/
def tiBody (el : Node) : List Block :=
  let imgCell :=
    [({ text := "Image Position: Left\n", bold := true } : Run)] ++
    (match findFirstTag el "img" with
     | some img =>
       [{ text := "IMAGE:\n", bold := true },
        plainRun (makeAbsolute ((img.getAttr "src").getD ""))]
     | none => [{ text := "No Image", italic := true }])
  let alt :=
    match findFirstTag el "img" with
    | some img => strTrim ((img.getAttr "alt").getD "")
    | none => ""
  let summary0 := strIntercalate "\n\n" (dedupKeepFirst (tiParts el))
  let summary1 := if summary0 = "" then strTake (el.getTextSepStrip) 500 else summary0
  let summary := strReplace (strReplace (strReplace summary1 "Previous" "") "Next" "") "1sur1" ""
  [Block.table "Table Grid"
     [[imgCell,
       [{ text := "Alt Text: ", bold := true },
        plainRun (if alt = "" then "No Alt Text" else alt)]]],
   emptyPara,
   plainPara (strTrim summary)]

/-- The simulation's standard component body: image/summary table. -/
def stdBody (el : Node) (nm : String) : List Block :=
  let summary0 := strIntercalate "\n\n" (dedupKeepFirst (stdParts el nm))
  let summary := if summary0 = "" then strTake (el.getTextSepStrip) 500 else summary0
  [Block.table "Table Grid"
     [[(match findFirstTag el "img" with
        | some img =>
          [{ text := "IMAGE:\n", bold := true },
           plainRun (makeAbsolute ((img.getAttr "src").getD ""))]
        | none => [{ text := "No Image", italic := true }]),
       [plainRun summary]]]]

/-- Model of `SimulationCrawler._process_special_component`: optional category
paragraph (Hero Article), numbered marker (Text Image), marker for every
component, then the kind-specific body and a trailing spacer. -/
def specialBlocks (cnt : Counters) (el : Node) (nm : String) : List Block × Counters :=
  let catBlocks :=
    if nm = "Hero Article" then
      match findFirstClass el "hero--article-category" with
      | some catElem =>
        let catUrl :=
          match findFirstTag catElem "a" with
          | some link => makeAbsolute ((link.getAttr "href").getD "")
          | none => ""
        [Block.para none
          ([{ text := "Article category: " ++ catElem.getTextStrip, bold := true }] ++
           (if catUrl = "" then []
            else [{ text := " - " ++ catUrl, italic := true }]))]
      | none => []
    else []
  let numbered := nm = "Text Image"
  let cnt' := if numbered then { cnt with ti := cnt.ti + 1 } else cnt
  let dispName := if numbered then nm ++ " " ++ toString (cnt.ti + 1) else nm
  let body := if numbered then tiBody el else stdBody el nm
  (catBlocks ++ [compMarkerBlock dispName] ++ body ++ [emptyPara], cnt')

mutual
/-- Model of `SimulationCrawler._process_element`: like the dedicated
extractor's walker, but with the six-token exclusion list, a separate
newsletter check, and the heuristic feedback-block exclusion (small `div`
whose subtree text contains — and some text node equals — the feedback
phrase). -/
def processElement (cnt : Counters) (n : Node) : List Block × Counters :=
  match n with
  | .text _ => ([], cnt)
  | .elem tag classes attrs children =>
    if tag ∈ skipTags then ([], cnt)
    else if classes.any (fun c => c ∈ exclusions) then ([], cnt)
    else if "component--newsletter" ∈ classes then ([], cnt)
    else if lookupAttr attrs "id" = some "nppe-feedback-article-form" then ([], cnt)
    else if tag = "div" ∧
        listHasSub feedbackPhrase.toList (Node.elem tag classes attrs children).getText.toList ∧
        (Node.elem tag classes attrs children).getText.length < 1000 ∧
        feedbackPhrase ∈ (Node.elem tag classes attrs children).rawStrings ∧
        (Node.elem tag classes attrs children).getText.length < 300 then ([], cnt)
    else
      let pre : List Block × Counters :=
        if targetClasses.all (fun c => c ∈ classes) then
          ([tbMarkerBlock (cnt.tb + 1)], { cnt with tb := cnt.tb + 1 })
        else ([], cnt)
      match classifyComponent tag classes with
      | some nm =>
        let r := specialBlocks pre.2 (.elem tag classes attrs children) nm
        (pre.1 ++ r.1, r.2)
      | none =>
        if tag = "h1" then (pre.1, pre.2)
        else if tag ∈ ["h2", "h3", "h4", "h5", "h6"] then
          (pre.1 ++
            [Block.heading (headingLevelOf tag)
              (childRuns makeAbsolute (.elem tag classes attrs children))],
           pre.2)
        else if tag = "p" then
          (pre.1 ++ [Block.para none (childRuns makeAbsolute (.elem tag classes attrs children))],
           pre.2)
        else if tag ∈ ["ul", "ol"] then
          (pre.1 ++
            (children.filter (fun c => c.tagName = "li")).map (fun li =>
              Block.para (some (if tag = "ul" then "List Bullet" else "List Number"))
                (childRuns makeAbsolute li)),
           pre.2)
        else if tag = "table" then
          (pre.1 ++ processTable (.elem tag classes attrs children), pre.2)
        else
          let r := processChildren pre.2 children
          (pre.1 ++ r.1, r.2)

/-- Child recursion of the simulation walker (same rule as the dedicated
extractor). -/
def processChildren (cnt : Counters) (l : List Node) : List Block × Counters :=
  match l with
  | [] => ([], cnt)
  | c :: rest =>
    match c with
    | .text s =>
      let pre := if (strTrim s).length > 20 then [plainPara (strTrim s)] else []
      let r := processChildren cnt rest
      (pre ++ r.1, r.2)
    | .elem t cs a ch =>
      let r1 := processElement cnt (.elem t cs a ch)
      let r2 := processChildren r1.2 rest
      (r1.1 ++ r2.1, r2.2)
end

end Sim

/-! ### Marker recognition and the impostor guard -/

/-- The label opening shared by all Text Image markers. -/
def tiPat : List Char := "[COMPONENT: Text Image ".toList

/-- The label opening of all Text Block markers. -/
def tbPat : List Char := "[COMPONENT: Text Block ".toList

/-- Recognise a Text Image marker paragraph in the output stream by its
formatting (italic, 9pt, gray) and label opening. -/
def isTIMarker : Block → Bool
  | .para none [r] =>
    r.italic && !r.bold && r.size == some 9 && r.color == some (100, 100, 100) &&
      listHasPre tiPat r.text.toList
  | _ => false

/-- Recognise a Text Block marker paragraph (bold, 9pt, dark green). -/
def isTBMarker : Block → Bool
  | .para none [r] =>
    r.bold && r.size == some 9 && r.color == some (0, 100, 0) &&
      listHasPre tbPat r.text.toList
  | _ => false

/-- A component label whose generic marker cannot be mistaken for a Text
Image marker: one of the three specially-rendered names, or any name whose
marker text does not open like a Text Image label. -/
def noImpostorName : Option String → Bool
  | none => true
  | some nm =>
    nm = "Hero Article" || nm = "Articles List" || nm = "Text Image" ||
      !(listHasPre tiPat ("[COMPONENT: " ++ nm ++ "]").toList)

mutual
/-- No element of the tree classifies to a generic component whose label text
collides with the Text Image marker pattern (e.g. a crafted class token
`component--text-image-7`, whose generic marker would read exactly like a
numbered Text Image marker). -/
def noImpostor : Node → Bool
  | .text _ => true
  | .elem tag classes _ ch =>
    noImpostorName (classifyComponent tag classes) && noImpostorList ch
def noImpostorList : List Node → Bool
  | [] => true
  | n :: rest => noImpostor n && noImpostorList rest
end

/-! ### Concrete inputs used by counterexamples and witnesses -/

/-- Origin used by the concrete scenarios: `https://example.com`. -/
def ctxEx : Ctx := ⟨"https", "example.com"⟩

/-- Anchor with a relative href, visible text `First`. -/
def c1Link1 : Node := .elem "a" [] [("href", "/article-1")] [.text "First"]

/-- Anchor with an absolute href resolving to the same URL, text `Second`. -/
def c1Link2 : Node := .elem "a" [] [("href", "https://example.com/article-1")] [.text "Second"]

/-- Articles List component holding two anchors whose distinct raw hrefs
resolve to the same absolute URL. -/
def c1El : Node := .elem "div" ["component--articles-list"] [] [c1Link1, c1Link2]

/-- A minimal Text Image component (image only). -/
def c2Ti : Node :=
  .elem "div" ["component--text-image"] [] [.elem "img" [] [("src", "/i.jpg"), ("alt", "x")] []]

/-- A container with two Text Image components and a Text Block element. -/
def c2Tree : Node :=
  .elem "div" [] []
    [c2Ti,
     .elem "div" targetClasses [] [],
     c2Ti]

/-- An excluded element (progress-bar class) wrapping a component that would
otherwise render. -/
def c4El : Node := .elem "div" ["article--progressbar"] [] [c2Ti]

/-- An element carrying the 7-token Text Block combination and a component
class on a container tag. -/
def c5El : Node :=
  .elem "div" (targetClasses ++ ["component--text-image"]) []
    [.elem "img" [] [("src", "/i.jpg"), ("alt", "x")] []]

/-- Scenario-E table: row 1 has 3 cells, row 2 has 2 cells. -/
def c7Table : Node :=
  .elem "table" [] []
    [.elem "tr" [] []
       [.elem "td" [] [] [.text "a"], .elem "td" [] [] [.text "b"],
        .elem "td" [] [] [.text "c"]],
     .elem "tr" [] []
       [.elem "td" [] [] [.text "d"], .elem "td" [] [] [.text "e"]]]

/-- A one-row table with a header cell and a data cell. -/
def c8Table : Node :=
  .elem "table" [] []
    [.elem "tr" [] [] [.elem "th" [] [] [.text "H"], .elem "td" [] [] [.text "D"]]]

/-- An unclassed, id-less `div` holding only the feedback prompt. -/
def c9El : Node :=
  .elem "div" [] [] [.elem "p" [] [] [.text "Aidez-nous à nous améliorer"]]

/-- Articles List component whose only anchors are a category link and an
href-less anchor. -/
def c10El : Node :=
  .elem "div" ["component--articles-list"] []
    [.elem "div" ["field--name-field-article-category"] []
       [.elem "a" [] [("href", "/cat")] [.text "Category"]],
     .elem "a" [] [] [.text "No href"]]

/-! ## Supporting lemmas -/

/-- Invariant of the Articles List collection loop: the seen-URL list mirrors
the raw hrefs of the kept anchors, stays duplicate-free, and every kept
anchor has a nonempty raw href. -/
theorem articleLinks_fold_inv (l : List (Node × List Node)) :
    ∀ acc : List (Node × List Node) × List String,
      acc.1.map hrefOf = acc.2 →
      acc.2.Nodup →
      (∀ p ∈ acc.1, hrefOf p ≠ "") →
      ((l.foldl articleLinksStep acc).1.map hrefOf = (l.foldl articleLinksStep acc).2)
      ∧ (l.foldl articleLinksStep acc).2.Nodup
      ∧ (∀ p ∈ (l.foldl articleLinksStep acc).1, hrefOf p ≠ "") := by
  induction l with
  | nil => exact fun acc h1 h2 h3 => ⟨h1, h2, h3⟩
  | cons p rest ih =>
    intro acc h1 h2 h3
    simp only [List.foldl_cons]
    have hstep :
        (articleLinksStep acc p).1.map hrefOf = (articleLinksStep acc p).2
        ∧ (articleLinksStep acc p).2.Nodup
        ∧ (∀ q ∈ (articleLinksStep acc p).1, hrefOf q ≠ "") := by
      unfold articleLinksStep
      dsimp only
      split_ifs with hc hk
      · exact ⟨h1, h2, h3⟩
      · refine ⟨by simp [h1], ?_, ?_⟩
        · simp [List.nodup_append, h2, hk.2]
        · intro q hq
          rcases List.mem_append.mp hq with hq | hq
          · exact h3 q hq
          · simp only [List.mem_singleton] at hq
            subst hq
            exact hk.1
      · exact ⟨h1, h2, h3⟩
    exact ih (articleLinksStep acc p) hstep.1 hstep.2.1 hstep.2.2

/-- The kept Articles List anchors have pairwise distinct raw hrefs, and none
of them has an empty or missing href. -/
theorem articleLinksOf_inv (el : Node) :
    ((articleLinksOf el).map hrefOf).Nodup ∧ ∀ p ∈ articleLinksOf el, hrefOf p ≠ "" := by
  have h := articleLinks_fold_inv
    ((el.descendantsAnc).filter (fun p => p.1.tagName = "a")) ([], [])
    rfl List.nodup_nil (by simp)
  refine ⟨?_, h.2.2⟩
  rw [show articleLinksOf el =
    (((el.descendantsAnc).filter (fun p => p.1.tagName = "a")).foldl
      articleLinksStep ([], [])).1 from rfl]
  rw [h.1]
  exact h.2.1

theorem listHasPre_append {α : Type} [DecidableEq α] (l t : List α) :
    listHasPre l (l ++ t) = true := by
  induction l with
  | nil => rfl
  | cons a as ih => simp [listHasPre, ih]

theorem splitFirstAux_eq_some {sep : Char} :
    ∀ {l a b : List Char}, splitFirstAux sep l = some (a, b) → l = a ++ sep :: b := by
  intro l
  induction l with
  | nil => intro a b h; simp [splitFirstAux] at h
  | cons c cs ih =>
    intro a b h
    by_cases hc : c = sep
    · subst hc
      simp only [splitFirstAux, if_pos rfl, Option.some_inj, Prod.mk.injEq] at h
      obtain ⟨rfl, rfl⟩ := h
      rfl
    · simp only [splitFirstAux, if_neg hc, Option.map_eq_some'] at h
      obtain ⟨⟨a1, b1⟩, hinner, heq⟩ := h
      simp only [Prod.mk.injEq] at heq
      obtain ⟨rfl, rfl⟩ := heq
      simpa using congrArg (c :: ·) (ih hinner)

theorem splitFirstAux_none {sep : Char} :
    ∀ {l : List Char}, (∀ c ∈ l, c ≠ sep) → splitFirstAux sep l = none := by
  intro l
  induction l with
  | nil => intro _; rfl
  | cons c cs ih =>
    intro h
    have hc : c ≠ sep := h c (by simp)
    simp [splitFirstAux, hc, ih (fun d hd => h d (by simp [hd]))]

theorem splitFirst_of_not_mem {sep : Char} {s : String}
    (h : ∀ c ∈ s.toList, c ≠ sep) : splitFirst sep s = (s, none) := by
  unfold splitFirst
  rw [splitFirstAux_none h]

/-- A string beginning with `/` starts with a non-letter before any colon, so
scheme detection fails on it. -/
theorem extractScheme_slash {s : String} (h : strStarts s "/" = true) :
    extractScheme s = none := by
  obtain ⟨t, ht⟩ : ∃ t, s.toList = '/' :: t := by
    cases hl : s.toList with
    | nil => rw [strStarts, hl] at h; simp [listHasPre] at h
    | cons c cs =>
      rw [strStarts, hl] at h
      have : '/' = c := by simpa [listHasPre] using h
      exact ⟨cs, by rw [← this]⟩
  unfold extractScheme
  cases hsp : splitFirst ':' s with
  | mk before rest? =>
    cases rest? with
    | none => rfl
    | some rest =>
      dsimp only
      have hba : s.toList = before.toList ++ ':' :: rest.toList := by
        unfold splitFirst at hsp
        cases haux : splitFirstAux ':' s.toList with
        | none => rw [haux] at hsp; simp at hsp
        | some p =>
          rw [haux] at hsp
          have hl := splitFirstAux_eq_some haux
          cases p with
          | mk a b =>
            injection hsp with h1 h2
            injection h2 with h2
            subst h1; subst h2
            exact hl
      have hhead : (before.toList.headD ' ').isAlpha = false := by
        cases hb : before.toList with
        | nil =>
          rw [hb] at hba
          simp only [List.nil_append] at hba
          rw [ht] at hba
          cases hba
        | cons c0 cs0 =>
          have : c0 = '/' := by
            rw [hb] at hba
            rw [ht] at hba
            simpa using (congrArg (fun l => l.headD ' ') hba).symm
          subst this
          rfl
      rw [if_neg]
      rintro ⟨-, halpha, -⟩
      rw [hhead] at halpha
      cases halpha

theorem splitSlashAux_ne_nil (l : List Char) : ∀ acc, splitSlashAux acc l ≠ [] := by
  induction l with
  | nil => intro acc; simp [splitSlashAux]
  | cons c rest ih =>
    intro acc
    by_cases hc : c = '/' <;> simp [splitSlashAux, hc]
    · exact ih (c :: acc)

theorem joinSlash_splitSlashAux (l : List Char) :
    ∀ acc, joinSlash (splitSlashAux acc l) = acc.reverse ++ l := by
  induction l with
  | nil => intro acc; simp [splitSlashAux, joinSlash]
  | cons c rest ih =>
    intro acc
    by_cases hc : c = '/'
    · subst hc
      rw [splitSlashAux, if_pos rfl]
      obtain ⟨x, xs, hxx⟩ : ∃ x xs, splitSlashAux [] rest = x :: xs := by
        cases hsp : splitSlashAux ([] : List Char) rest with
        | nil => exact absurd hsp (splitSlashAux_ne_nil rest [])
        | cons x xs => exact ⟨x, xs, rfl⟩
      rw [hxx]
      have hrest := ih ([] : List Char)
      rw [hxx] at hrest
      show acc.reverse ++ '/' :: joinSlash (x :: xs) = acc.reverse ++ '/' :: rest
      rw [show joinSlash (x :: xs) = rest from by simpa using hrest]
    · rw [splitSlashAux, if_neg hc, ih (c :: acc)]
      simp

theorem joinSlash_splitSlash (l : List Char) : joinSlash (splitSlash l) = l := by
  simpa using joinSlash_splitSlashAux l []

theorem dotFold_no_dots :
    ∀ (segs : List (List Char)) (acc : List (List Char)),
      (∀ s ∈ segs, s ≠ ['.'] ∧ s ≠ ['.', '.']) →
      segs.foldl dotStep acc = acc ++ segs := by
  intro segs
  induction segs with
  | nil => intro acc _; simp
  | cons s rest ih =>
    intro acc h
    have hs := h s (by simp)
    rw [List.foldl_cons, show dotStep acc s = acc ++ [s] from by
      unfold dotStep; rw [if_neg hs.2, if_neg hs.1]]
    rw [ih (acc ++ [s]) (fun q hq => h q (by simp [hq]))]
    simp

/-- Dot-segment resolution is the identity on a segment list containing no
dot segments. -/
theorem removeDotSegs_no_dots (segs : List (List Char))
    (h : ∀ s ∈ segs, s ≠ ['.'] ∧ s ≠ ['.', '.']) :
    removeDotSegs segs = segs := by
  unfold removeDotSegs
  cases hlast : segs.getLast? with
  | none =>
    have : segs = [] := by
      cases segs with
      | nil => rfl
      | cons a l => simp [List.getLast?_eq_getLast] at hlast
    subst this; rfl
  | some last =>
    have hmem : last ∈ segs := by
      obtain ⟨hne, hx⟩ := List.mem_getLast?_eq_getLast (Option.mem_def.mpr hlast)
      rw [hx]; exact List.getLast_mem hne
    have hl := h last hmem
    simp only
    rw [if_neg (by rintro (h1 | h2) <;> simp_all)]
    simpa using dotFold_no_dots segs [] h

/-! ## Claim theorems -/

/-- Claim C3: running the extractor twice on the identical parsed tree with
the identical source URL produces identical output content; the two per-call
counters are reset at the start of every extraction call, so the worker's
counter state at call time never influences the emitted blocks. -/
theorem C3_extraction_reset_idempotent (ctx : Ctx) (url : String) (soup : Node)
    (s1 s2 : Counters) :
    saveToDocx ctx url soup s1 = saveToDocx ctx url soup s2 := rfl

/-- Claim C4: an element whose class tokens intersect the Exclusion Set, or
whose id equals the feedback-widget id, contributes zero blocks for itself and
its entire subtree; the document and the counters are exactly as before the
walker visited it. -/
theorem C4_exclusion_prunes_subtree (ctx : Ctx) (cnt : Counters)
    (tag : String) (classes : List String) (attrs : List (String × String))
    (children : List Node)
    (h : classes.any (fun c => c ∈ exclusionSet) = true ∨
         lookupAttr attrs "id" = some "nppe-feedback-article-form") :
    processElement ctx cnt (.elem tag classes attrs children) = ([], cnt) := by
  rw [processElement]
  rcases h with h | h <;> · split_ifs <;> simp_all

/-- Claim C10 (implicit): anchors with a missing or empty href are dropped
before deduplication ever sees them, and when no qualifying anchor remains the
Articles List renderer emits no table at all — only the trailing spacer
paragraph. -/
theorem C10_articles_list_empty (ctx : Ctx) (el : Node) :
    (∀ p ∈ articleLinksOf el, hrefOf p ≠ "")
    ∧ ((articleLinksOf el).isEmpty = true → articlesListBlocks ctx el = [emptyPara]) := by
  refine ⟨(articleLinksOf_inv el).2, fun h => ?_⟩
  unfold articlesListBlocks
  simp [h]

/-- Witness for C4: the progress-bar-classed element wrapping a Text Image
component yields no blocks and leaves the counters untouched. -/
theorem C4_witness :
    (["article--progressbar"].any (fun c => c ∈ exclusionSet) = true ∨
       lookupAttr [] "id" = some "nppe-feedback-article-form")
    ∧ processElement ctxEx ⟨0, 0⟩ c4El = ([], ⟨0, 0⟩) :=
  ⟨Or.inl (by decide),
   C4_exclusion_prunes_subtree ctxEx ⟨0, 0⟩ "div" ["article--progressbar"] [] [c2Ti]
     (Or.inl (by decide))⟩

/-- Witness for C10: the component whose anchors are only a category link and
an href-less anchor keeps no link and emits only the spacer. -/
theorem C10_witness :
    (∀ p ∈ articleLinksOf c10El, hrefOf p ≠ "")
    ∧ articlesListBlocks ctxEx c10El = [emptyPara] :=
  ⟨(C10_articles_list_empty ctxEx c10El).1,
   (C10_articles_list_empty ctxEx c10El).2 (by decide)⟩

/-- Claim C1 counterexample: two anchors with distinct raw hrefs (`/article-1`
and the absolute form) resolve to the same absolute URL, yet the rendered
table keeps BOTH data rows — deduplication is keyed on the raw href, not on
the resolved absolute URL as the claim states. -/
theorem C1_counterexample :
    (articlesListBlocks ctxEx c1El).head? =
      some (Block.table "Light Grid Accent 1"
        [[[{ text := "Title", bold := true }], [{ text := "URL", bold := true }]],
         [[{ text := "Component: Articles List", bold := true }], [plainRun ""]],
         [[plainRun "First"], [plainRun "https://example.com/article-1"]],
         [[plainRun "Second"], [plainRun "https://example.com/article-1"]]]) := by
  decide

/-- Claim C1 (amended): the ArticlesList renderer deduplicates by the raw
href string: the kept anchors have pairwise distinct raw hrefs, and each kept
anchor contributes exactly one data row carrying its resolved absolute URL
(anchors with distinct raw hrefs that resolve to the same absolute URL each
contribute a row). -/
theorem C1_dedup_by_raw_href (ctx : Ctx) (el : Node)
    (h : (articleLinksOf el).isEmpty = false) :
    ((articleLinksOf el).map hrefOf).Nodup
    ∧ ∃ hdr : List (List Cell), hdr.length = 2 ∧
        articlesListBlocks ctx el =
          [Block.table "Light Grid Accent 1"
            (hdr ++ (articleLinksOf el).map (fun p =>
              [[plainRun (articleTitleOf p)], [plainRun (makeAbsolute ctx (hrefOf p))]])),
           emptyPara] := by
  refine ⟨(articleLinksOf_inv el).1,
    ⟨[[[{ text := "Title", bold := true }], [{ text := "URL", bold := true }]],
      [[{ text := "Component: " ++
           (match findFirstTags el ["h2", "h3", "h4"] with
            | some t => t.getTextStrip
            | none => "Articles List"), bold := true }],
       [plainRun ""]]], rfl, ?_⟩⟩
  unfold articlesListBlocks
  dsimp only
  rw [h]
  rfl

/-- Witness for the amended C1 on the two-anchor component: both hypotheses
discharge by computation. -/
theorem C1_witness :
    ((articleLinksOf c1El).map hrefOf).Nodup
    ∧ ∃ hdr : List (List Cell), hdr.length = 2 ∧
        articlesListBlocks ctxEx c1El =
          [Block.table "Light Grid Accent 1"
            (hdr ++ (articleLinksOf c1El).map (fun p =>
              [[plainRun (articleTitleOf p)], [plainRun (makeAbsolute ctxEx (hrefOf p))]])),
           emptyPara] :=
  C1_dedup_by_raw_href ctxEx c1El (by decide)

/-- Claim C6 counterexample: a protocol-relative reference starts with `/`
but does not resolve to origin-plus-path — `urljoin` adopts the reference's
own host, exactly as CPython does. -/
theorem C6_counterexample :
    makeAbsolute ctxEx "//cdn.example.com/a" = "https://cdn.example.com/a"
    ∧ makeAbsolute ctxEx "//cdn.example.com/a" ≠
        ctxEx.scheme ++ "://" ++ ctxEx.host ++ "//cdn.example.com/a" := by
  decide

/-- Claim C6 (amended): the resolver returns the empty string on empty input
and inputs starting with `http` unchanged; an input starting with `/` — but
not `//`, containing no `?`/`#` and no `.`/`..` path segment — resolves to the
captured origin concatenated with the path. -/
theorem C6_make_absolute (ctx : Ctx) (url : String) :
    (makeAbsolute ctx "" = "")
    ∧ (strStarts url "http" = true → makeAbsolute ctx url = url)
    ∧ (strStarts url "/" = true → strStarts url "//" = false →
       url.toList.all (fun c => c ≠ '?' ∧ c ≠ '#') = true →
       (splitSlash url.toList).all
         (fun seg => seg ≠ ['.'] ∧ seg ≠ ['.', '.']) = true →
       makeAbsolute ctx url = ctx.scheme ++ "://" ++ ctx.host ++ url) := by
  refine ⟨rfl, ?_, ?_⟩
  · intro h
    have hne : url ≠ "" := by
      rintro rfl
      simp [strStarts, listHasPre] at h
    rw [makeAbsolute, if_neg hne, if_pos h]
  · intro hSlash hNoSlash2 hNoQF hNoDots
    have hne : url ≠ "" := by
      rintro rfl
      simp [strStarts, listHasPre] at hSlash
    have hnotHttp : ¬ strStarts url "http" = true := by
      obtain ⟨t, ht⟩ : ∃ t, url.toList = '/' :: t := by
        cases hl : url.toList with
        | nil => rw [strStarts, hl] at hSlash; simp [listHasPre] at hSlash
        | cons c cs =>
          rw [strStarts, hl] at hSlash
          have : '/' = c := by simpa [listHasPre] using hSlash
          exact ⟨cs, by rw [← this]⟩
      rw [strStarts, ht]
      simp [listHasPre]
    have hQF : ∀ c ∈ url.toList, c ≠ '?' ∧ c ≠ '#' := by
      simpa using List.all_eq_true.mp hNoQF
    have hfrag : splitFirst '#' url = (url, none) :=
      splitFirst_of_not_mem (fun c hc => (hQF c hc).2)
    have hquery : splitFirst '?' url = (url, none) :=
      splitFirst_of_not_mem (fun c hc => (hQF c hc).1)
    have hDots : ∀ s ∈ splitSlash url.toList, s ≠ ['.'] ∧ s ≠ ['.', '.'] := by
      simpa using List.all_eq_true.mp hNoDots
    have hlne : url.toList ≠ [] := by
      intro hnil
      apply hne
      cases url with
      | mk d => exact congrArg String.mk hnil
    rw [makeAbsolute, if_neg hne, if_neg hnotHttp, urljoinOrigin,
      extractScheme_slash hSlash]
    unfold urljoinNoScheme
    rw [hfrag]
    dsimp only
    rw [hquery]
    dsimp only
    rw [if_neg (show ¬ strStarts url "//" = true from by simp [hNoSlash2])]
    dsimp only
    rw [if_neg hne]
    rw [if_pos hSlash]
    rw [removeDotSegs_no_dots _ hDots, joinSlash_splitSlash]
    rw [if_neg hlne]
    simp only [show (⟨url.toList⟩ : String) = url from rfl]
    rw [if_pos hSlash]
    show ctx.scheme ++ "://" ++ ctx.host ++ url ++ reAddQF none none =
      ctx.scheme ++ "://" ++ ctx.host ++ url
    rw [show reAddQF none none = "" from rfl]
    rw [String.append_empty]

/-- Witness for the amended C6 at the three concrete inputs of its cases. -/
theorem C6_witness :
    makeAbsolute ctxEx "" = ""
    ∧ makeAbsolute ctxEx "http://other.org/x" = "http://other.org/x"
    ∧ makeAbsolute ctxEx "/article-1" = ctxEx.scheme ++ "://" ++ ctxEx.host ++ "/article-1" :=
  ⟨(C6_make_absolute ctxEx "").1,
   (C6_make_absolute ctxEx "http://other.org/x").2.1 (by decide),
   (C6_make_absolute ctxEx "/article-1").2.2 (by decide) (by decide) (by decide) (by decide)⟩

/-- Claim C9 counterexample: the dedicated content extractor has no heuristic
feedback-text fallback — an unclassed, id-less `div` containing only the
feedback prompt (27 characters, far below any threshold) still produces an
output paragraph. -/
theorem C9_counterexample :
    (processElement ctxEx ⟨0, 0⟩ c9El).1 =
      [Block.para none [plainRun "Aidez-nous à nous améliorer"]]
    ∧ listHasSub "Aidez-nous à nous améliorer".toList (c9El.getText).toList = true
    ∧ (c9El.getText).length < 300
    ∧ c9El.classList = []
    ∧ c9El.getAttr "id" = none := by
  decide

/-- Claim C9 (amended): only the simulation script implements the heuristic
fallback, and it skips an element exactly in this form: the tag is `div`, the
subtree text contains the feedback phrase, some text node equals the phrase
verbatim, and the subtree text is shorter than 300 characters; then the
element and its whole subtree produce no output and the counters are
unchanged. -/
theorem C9_sim_heuristic (cnt : Counters) (classes : List String)
    (attrs : List (String × String)) (children : List Node)
    (hsub : listHasSub Sim.feedbackPhrase.toList
      (Node.elem "div" classes attrs children).getText.toList = true)
    (hnode : Sim.feedbackPhrase ∈ (Node.elem "div" classes attrs children).rawStrings)
    (hlen : (Node.elem "div" classes attrs children).getText.length < 300) :
    Sim.processElement cnt (.elem "div" classes attrs children) = ([], cnt) := by
  rw [Sim.processElement]
  rw [if_neg (by decide : ¬ ("div" : String) ∈ skipTags)]
  by_cases hA : (classes.any (fun c => c ∈ Sim.exclusions)) = true
  · rw [if_pos hA]
  · rw [if_neg hA]
    by_cases hB : ("component--newsletter" : String) ∈ classes
    · rw [if_pos hB]
    · rw [if_neg hB]
      by_cases hC : lookupAttr attrs "id" = some "nppe-feedback-article-form"
      · rw [if_pos hC]
      · rw [if_neg hC]
        rw [if_pos ⟨rfl, hsub, by omega, hnode, hlen⟩]

/-- Witness for the amended C9: the simulation walker skips the concrete
feedback `div`. -/
theorem C9_witness :
    Sim.processElement ⟨0, 0⟩ c9El = ([], ⟨0, 0⟩) :=
  C9_sim_heuristic ⟨0, 0⟩ [] []
    [.elem "p" [] [] [.text "Aidez-nous à nous améliorer"]]
    (by decide) (by decide) (by decide)

/-- Claim C5: an element carrying the 7-token Text Block combination first
emits the Text Block marker; the stoppable component check still runs
afterwards — on a component match the renderer's blocks follow the marker and
recursion halts, and with no component match (and no dedicated tag handler)
the walker continues into the children. -/
theorem C5_textblock_then_component (ctx : Ctx) (cnt : Counters)
    (tag : String) (classes : List String) (attrs : List (String × String))
    (children : List Node)
    (h1 : tag ∉ skipTags)
    (h2 : classes.any (fun c => c ∈ exclusionSet) = false)
    (h3 : lookupAttr attrs "id" ≠ some "nppe-feedback-article-form")
    (h4 : targetClasses.all (fun c => c ∈ classes) = true) :
    (∀ nm, classifyComponent tag classes = some nm →
       processElement ctx cnt (.elem tag classes attrs children) =
         (tbMarkerBlock (cnt.tb + 1) ::
            (processSpecialComponent ctx { cnt with tb := cnt.tb + 1 }
              (.elem tag classes attrs children) nm).1,
          (processSpecialComponent ctx { cnt with tb := cnt.tb + 1 }
            (.elem tag classes attrs children) nm).2))
    ∧ (classifyComponent tag classes = none →
       tag ∉ ["h1", "h2", "h3", "h4", "h5", "h6", "p", "ul", "ol", "table"] →
       processElement ctx cnt (.elem tag classes attrs children) =
         (tbMarkerBlock (cnt.tb + 1) ::
            (processChildren ctx { cnt with tb := cnt.tb + 1 } children).1,
          (processChildren ctx { cnt with tb := cnt.tb + 1 } children).2)) := by
  constructor
  · intro nm hnm
    rw [processElement]
    rw [if_neg h1, if_neg (show ¬ classes.any (fun c => c ∈ exclusionSet) = true from by
      simp [h2]), if_neg h3]
    dsimp only
    rw [if_pos h4, hnm]
    rfl
  · intro hnone htags
    have t1 : ¬ tag = "h1" := fun hh => htags (by simp [hh])
    have t2 : ¬ tag ∈ (["h2", "h3", "h4", "h5", "h6"] : List String) := by
      intro hh
      apply htags
      simp only [List.mem_cons, List.not_mem_nil, or_false] at hh ⊢
      tauto
    have t3 : ¬ tag = "p" := fun hh => htags (by simp [hh])
    have t4 : ¬ tag ∈ (["ul", "ol"] : List String) := by
      intro hh
      apply htags
      simp only [List.mem_cons, List.not_mem_nil, or_false] at hh ⊢
      tauto
    have t5 : ¬ tag = "table" := fun hh => htags (by simp [hh])
    rw [processElement]
    rw [if_neg h1, if_neg (show ¬ classes.any (fun c => c ∈ exclusionSet) = true from by
      simp [h2]), if_neg h3]
    dsimp only
    rw [if_pos h4, hnone]
    dsimp only
    rw [if_neg t1, if_neg t2, if_neg t3, if_neg t4, if_neg t5]
    rfl

/-- Witness for C5: the element carrying both the Text Block classes and a
`component--text-image` class emits the marker first, then the Text Image
renderer output, and recursion stops. -/
theorem C5_witness :
    processElement ctxEx ⟨0, 0⟩ c5El =
      (tbMarkerBlock 1 ::
         (processSpecialComponent ctxEx ⟨1, 0⟩ c5El "Text Image").1,
       (processSpecialComponent ctxEx ⟨1, 0⟩ c5El "Text Image").2) :=
  (C5_textblock_then_component ctxEx ⟨0, 0⟩ "div"
      (targetClasses ++ ["component--text-image"]) []
      [.elem "img" [] [("src", "/i.jpg"), ("alt", "x")] []]
      (by decide) (by decide) (by decide) (by decide)).1
    "Text Image" (by decide)

theorem foldl_max_init (l : List Nat) (a : Nat) : a ≤ l.foldl Nat.max a := by
  induction l generalizing a with
  | nil => simp
  | cons y ys ih =>
    rw [List.foldl_cons]
    exact le_trans (Nat.le_max_left a y) (ih (Nat.max a y))

theorem foldl_max_le {l : List Nat} {x : Nat} (hx : x ∈ l) :
    ∀ a, x ≤ l.foldl Nat.max a := by
  induction l with
  | nil => cases hx
  | cons y ys ih =>
    intro a
    rw [List.foldl_cons]
    rcases List.mem_cons.mp hx with rfl | hmem
    · exact le_trans (Nat.le_max_right a x) (foldl_max_init ys (Nat.max a x))
    · exact ih hmem (Nat.max a y)

theorem foldl_max_attained (l : List Nat) :
    ∀ a, l.foldl Nat.max a = a ∨ l.foldl Nat.max a ∈ l := by
  induction l with
  | nil => intro a; left; rfl
  | cons y ys ih =>
    intro a
    rw [List.foldl_cons]
    rcases ih (Nat.max a y) with h | h
    · rw [h]
      by_cases hm : a ≤ y
      · right
        have hmax : Nat.max a y = y :=
          Nat.le_antisymm (Nat.max_le.mpr ⟨hm, Nat.le_refl y⟩) (Nat.le_max_right a y)
        rw [hmax]
        exact List.mem_cons_self y ys
      · left
        have hmax : Nat.max a y = a :=
          Nat.le_antisymm (Nat.max_le.mpr ⟨Nat.le_refl a, Nat.le_of_not_le hm⟩)
            (Nat.le_max_left a y)
        rw [hmax]
    · right; exact List.mem_cons_of_mem y h

/-- Claim C7: a generically rendered table has one output row per `<tr>`, a
column count equal to the maximum cell count over all rows (attained by some
row), trailing cells of short rows left empty, and no Table block at all for
a table without rows. -/
theorem C7_generic_table (t : Node) :
    ((trRows t).isEmpty = true → processTable t = [])
    ∧ ((trRows t).isEmpty = false →
       ∃ rows : List (List Cell),
         processTable t = [Block.table "Light Grid Accent 1" rows]
         ∧ rows.length = (trRows t).length
         ∧ (∀ row ∈ rows, row.length = colCount t)
         ∧ (∀ r ∈ trRows t, (rowCells r).length ≤ colCount t)
         ∧ (∃ r ∈ trRows t, (rowCells r).length = colCount t)
         ∧ (∀ (i : Nat) (r : Node), (trRows t)[i]? = some r →
             ∀ j : Nat, (rowCells r).length ≤ j → j < colCount t →
               ∃ row : List Cell, rows[i]? = some row ∧ row[j]? = some ([] : Cell))) := by
  constructor
  · intro h
    unfold processTable
    dsimp only
    rw [h]
    rfl
  · intro h
    refine ⟨(trRows t).map (fun r => (List.range (colCount t)).map (fun j =>
        match (rowCells r)[j]? with
        | some c => [plainRun c.getTextStrip]
        | none => [])), ?_, by simp, ?_, ?_, ?_, ?_⟩
    · unfold processTable
      dsimp only
      rw [h]
      rfl
    · intro row hrow
      obtain ⟨r, hr, rfl⟩ := List.mem_map.mp hrow
      simp
    · intro r hr
      exact foldl_max_le (List.mem_map_of_mem (fun r => (rowCells r).length) hr) 0
    · rcases foldl_max_attained ((trRows t).map fun r => (rowCells r).length) 0 with hc | hc
      · obtain ⟨r0, hr0⟩ : ∃ r0, r0 ∈ trRows t := by
          cases htr : trRows t with
          | nil => rw [htr] at h; simp at h
          | cons a l => exact ⟨a, by simp [htr]⟩
        refine ⟨r0, hr0, ?_⟩
        have hle : (rowCells r0).length ≤ colCount t :=
          foldl_max_le (List.mem_map_of_mem (fun r => (rowCells r).length) hr0) 0
        have hc0 : colCount t = 0 := hc
        omega
      · obtain ⟨r, hr, hrc⟩ := List.mem_map.mp hc
        exact ⟨r, hr, hrc⟩
    · intro i r hir j hj1 hj2
      refine ⟨(List.range (colCount t)).map (fun j =>
        match (rowCells r)[j]? with
        | some c => [plainRun c.getTextStrip]
        | none => []), ?_, ?_⟩
      · rw [List.getElem?_map, hir]
        rfl
      · rw [List.getElem?_map, List.getElem?_range hj2]
        have hnone : (rowCells r)[j]? = none := List.getElem?_eq_none hj1
        simp [hnone]

/-- Witness for C7 at the empty table and the Scenario-E table (3 and 2 cells
in two rows). -/
theorem C7_witness :
    processTable (Node.elem "table" [] [] []) = []
    ∧ ∃ rows : List (List Cell),
        processTable c7Table = [Block.table "Light Grid Accent 1" rows]
        ∧ rows.length = (trRows c7Table).length
        ∧ (∀ row ∈ rows, row.length = colCount c7Table)
        ∧ (∀ r ∈ trRows c7Table, (rowCells r).length ≤ colCount c7Table)
        ∧ (∃ r ∈ trRows c7Table, (rowCells r).length = colCount c7Table)
        ∧ (∀ (i : Nat) (r : Node), (trRows c7Table)[i]? = some r →
            ∀ j : Nat, (rowCells r).length ≤ j → j < colCount c7Table →
              ∃ row : List Cell, rows[i]? = some row ∧ row[j]? = some ([] : Cell)) :=
  ⟨(C7_generic_table (Node.elem "table" [] [] [])).1 (by decide),
   (C7_generic_table c7Table).2 (by decide)⟩

/-- Claim C8 counterexample: the dedicated extractor's table renderer does
NOT bold header cells — the `<th>` cell is emitted as a plain run (the `Run`
literal's `bold` field defaults to `false`). -/
theorem C8_counterexample :
    processTable c8Table =
      [Block.table "Light Grid Accent 1" [[[{ text := "H" }], [{ text := "D" }]]]]
    ∧ ({ text := "H" } : Run).bold = false := by
  decide

/-- Claim C8 (amended): in both table renderers every assigned cell holds the
cell's flattened and trimmed text; header (`<th>`) cells are rendered bold
only by the crawler implementation — the dedicated extractor leaves all cells
unstyled. -/
theorem C8_header_cells (t : Node) :
    ∀ (i : Nat) (r : Node), (trRows t)[i]? = some r →
    ∀ (j : Nat) (c : Node), (rowCells r)[j]? = some c →
      (∃ rows : List (List Cell),
         processTable t = [Block.table "Light Grid Accent 1" rows]
        ∧ ∃ row : List Cell, rows[i]? = some row ∧
            row[j]? = some [({ text := c.getTextStrip } : Run)])
      ∧ (∃ rows : List (List Cell),
           crawlerProcessTable t = [Block.table "Light Grid Accent 1" rows]
        ∧ ∃ row : List Cell, rows[i]? = some row ∧
            row[j]? = some [({ text := c.getTextStrip, bold := c.tagName == "th" } : Run)]) := by
  intro i r hir j c hjc
  have hne : (trRows t).isEmpty = false := by
    cases htr : trRows t with
    | nil => rw [htr] at hir; simp at hir
    | cons a l => rfl
  have hjlt : j < (rowCells r).length := (List.getElem?_eq_some.mp hjc).fst
  have hrmem : r ∈ trRows t := by
    obtain ⟨hlt, heq⟩ := List.getElem?_eq_some.mp hir
    rw [← heq]
    exact List.getElem_mem hlt
  have hjcol : j < colCount t :=
    lt_of_lt_of_le hjlt (foldl_max_le (List.mem_map_of_mem
      (fun r => (rowCells r).length) hrmem) 0)
  constructor
  · refine ⟨(trRows t).map (fun r => (List.range (colCount t)).map (fun j =>
        match (rowCells r)[j]? with
        | some c => [plainRun c.getTextStrip]
        | none => [])), ?_, ?_⟩
    · unfold processTable
      dsimp only
      rw [hne]
      rfl
    · refine ⟨(List.range (colCount t)).map (fun j =>
        match (rowCells r)[j]? with
        | some c => [plainRun c.getTextStrip]
        | none => []), ?_, ?_⟩
      · rw [List.getElem?_map, hir]; rfl
      · rw [List.getElem?_map, List.getElem?_range hjcol]
        simp only [Option.map_some']
        rw [hjc]
        rfl
  · refine ⟨(trRows t).map (fun r => (List.range (colCount t)).map (fun j =>
        match (rowCells r)[j]? with
        | some c => [{ text := c.getTextStrip, bold := c.tagName == "th" }]
        | none => [])), ?_, ?_⟩
    · unfold crawlerProcessTable
      dsimp only
      rw [hne]
      rfl
    · refine ⟨(List.range (colCount t)).map (fun j =>
        match (rowCells r)[j]? with
        | some c => [{ text := c.getTextStrip, bold := c.tagName == "th" }]
        | none => []), ?_, ?_⟩
      · rw [List.getElem?_map, hir]; rfl
      · rw [List.getElem?_map, List.getElem?_range hjcol]
        simp only [Option.map_some']
        rw [hjc]

/-- Witness for the amended C8: in the one-row table, the `<th>` cell is
plain in the dedicated extractor and bold in the crawler. -/
theorem C8_witness :
    (∃ rows : List (List Cell),
       processTable c8Table = [Block.table "Light Grid Accent 1" rows]
      ∧ ∃ row : List Cell, rows[0]? = some row ∧
          row[0]? = some [({ text := "H" } : Run)])
    ∧ (∃ rows : List (List Cell),
         crawlerProcessTable c8Table = [Block.table "Light Grid Accent 1" rows]
      ∧ ∃ row : List Cell, rows[0]? = some row ∧
          row[0]? = some [({ text := "H", bold := true } : Run)]) :=
  C8_header_cells c8Table 0 (.elem "tr" [] [] [.elem "th" [] [] [.text "H"],
      .elem "td" [] [] [.text "D"]]) (by rfl)
    0 (.elem "th" [] [] [.text "H"]) (by rfl)

/-! ## Marker recognition lemmas (towards C2) -/

theorem tiMarker_text (s : String) :
    ("[COMPONENT: " ++ ("Text Image " ++ s) ++ "]").toList
      = tiPat ++ (s ++ "]").toList := by
  have hbase : ("[COMPONENT: Text Image " : String).data
      = ("[COMPONENT: " : String).data ++ ("Text Image " : String).data := by decide
  show ("[COMPONENT: " ++ ("Text Image " ++ s) ++ "]").data
      = ("[COMPONENT: Text Image " : String).data ++ (s ++ "]").data
  simp [String.data_append, hbase]

theorem isTIMarker_ti (n : Nat) : isTIMarker (tiMarkerBlock n) = true := by
  unfold isTIMarker tiMarkerBlock compMarkerBlock
  dsimp only
  rw [tiMarker_text, listHasPre_append]
  decide

theorem isTBMarker_ti (n : Nat) : isTBMarker (tiMarkerBlock n) = false := by
  simp [isTBMarker, tiMarkerBlock, compMarkerBlock]

theorem tbMarker_text (s : String) :
    ("[COMPONENT: Text Block " ++ s ++ "]").toList = tbPat ++ (s ++ "]").toList := by
  show ("[COMPONENT: Text Block " ++ s ++ "]").data
      = ("[COMPONENT: Text Block " : String).data ++ (s ++ "]").data
  simp [String.data_append]

theorem isTBMarker_tb (n : Nat) : isTBMarker (tbMarkerBlock n) = true := by
  unfold isTBMarker tbMarkerBlock
  dsimp only
  rw [tbMarker_text, listHasPre_append]
  decide

theorem isTIMarker_tb (n : Nat) : isTIMarker (tbMarkerBlock n) = false := by
  simp [isTIMarker, tbMarkerBlock]

theorem isTIMarker_comp (nm : String)
    (h : listHasPre tiPat ("[COMPONENT: " ++ nm ++ "]").toList = false) :
    isTIMarker (compMarkerBlock nm) = false := by
  unfold isTIMarker compMarkerBlock
  dsimp only
  rw [h]
  decide

theorem isTBMarker_comp (nm : String) : isTBMarker (compMarkerBlock nm) = false := by
  simp [isTBMarker, compMarkerBlock]

/-- A paragraph whose runs all lack an explicit font size is never a marker. -/
theorem markers_false_of_sizes {rs : List Run} (h : ∀ r ∈ rs, r.size = none) :
    isTIMarker (.para none rs) = false ∧ isTBMarker (.para none rs) = false := by
  cases rs with
  | nil => exact ⟨rfl, rfl⟩
  | cons r rest =>
    cases rest with
    | nil =>
      have hr := h r (by simp)
      constructor <;> simp [isTIMarker, isTBMarker, hr]
    | cons r2 rest2 => exact ⟨rfl, rfl⟩

theorem markers_false_plainPara (s : String) :
    isTIMarker (plainPara s) = false ∧ isTBMarker (plainPara s) = false := by
  unfold plainPara
  split_ifs
  · exact ⟨rfl, rfl⟩
  · exact markers_false_of_sizes (by intro r hr; simp at hr; subst hr; rfl)

theorem markers_false_headingText (lv : Nat) (s : String) :
    isTIMarker (headingText lv s) = false ∧ isTBMarker (headingText lv s) = false :=
  ⟨rfl, rfl⟩

theorem isTIMarker_table (st : String) (rows : List (List Cell)) :
    isTIMarker (.table st rows) = false := rfl

theorem isTBMarker_table (st : String) (rows : List (List Cell)) :
    isTBMarker (.table st rows) = false := rfl

theorem isTIMarker_emptyPara : isTIMarker emptyPara = false := rfl

theorem isTBMarker_emptyPara : isTBMarker emptyPara = false := rfl

/-- Filter characterisation used to discard marker-free block lists. -/
theorem filter_markers_nil {bs : List Block}
    (h : ∀ b ∈ bs, isTIMarker b = false ∧ isTBMarker b = false) :
    bs.filter isTIMarker = [] ∧ bs.filter isTBMarker = [] := by
  refine ⟨List.filter_eq_nil_iff.mpr ?_, List.filter_eq_nil_iff.mpr ?_⟩
  · intro b hb; simp [(h b hb).1]
  · intro b hb; simp [(h b hb).2]

theorem childRunsOf_size (mkAbs : String → String) (c : Node) :
    ∀ r ∈ childRunsOf mkAbs c, r.size = none := by
  intro r hr
  cases c with
  | text s =>
    unfold childRunsOf at hr
    dsimp only at hr
    split_ifs at hr
    · simp at hr
    · simp at hr; subst hr; rfl
  | elem tag cs attrs ch =>
    unfold childRunsOf at hr
    dsimp only at hr
    split_ifs at hr
    · rcases List.mem_cons.mp hr with rfl | hr2
      · rfl
      · simp at hr2
    · rcases List.mem_cons.mp hr with rfl | hr2
      · rfl
      · simp at hr2; subst hr2; rfl
    · simp at hr; subst hr; rfl
    · simp at hr; subst hr; rfl
    · simp at hr; subst hr; rfl

theorem childRuns_size (mkAbs : String → String) (el : Node) :
    ∀ r ∈ childRuns mkAbs el, r.size = none := by
  intro r hr
  unfold childRuns at hr
  obtain ⟨c, _, hrc⟩ := List.mem_flatMap.mp hr
  exact childRunsOf_size mkAbs c r hrc

theorem processTable_markers (t : Node) :
    (processTable t).filter isTIMarker = []
    ∧ (processTable t).filter isTBMarker = [] := by
  unfold processTable
  dsimp only
  split_ifs <;> exact ⟨rfl, rfl⟩

theorem hero_markers (ctx : Ctx) (el : Node) :
    (heroArticleBlocks ctx el).filter isTIMarker = []
    ∧ (heroArticleBlocks ctx el).filter isTBMarker = [] := by
  unfold heroArticleBlocks
  dsimp only
  apply filter_markers_nil
  intro b hb
  rcases List.mem_append.mp hb with hcat | htail
  · rcases hfc : findFirstClass el "hero--article-category" with - | catElem
    · rw [hfc] at hcat; simp at hcat
    · rw [hfc] at hcat
      simp only [List.mem_singleton] at hcat
      subst hcat
      apply markers_false_of_sizes
      intro r hr
      rcases List.mem_append.mp hr with h1 | h2
      · simp at h1; subst h1; rfl
      · split_ifs at h2
        · simp at h2
        · simp at h2; subst h2; rfl
  · simp only [List.mem_cons, List.not_mem_nil, or_false] at htail
    rcases htail with rfl | rfl
    · exact ⟨rfl, rfl⟩
    · exact ⟨rfl, rfl⟩

theorem articlesList_markers (ctx : Ctx) (el : Node) :
    (articlesListBlocks ctx el).filter isTIMarker = []
    ∧ (articlesListBlocks ctx el).filter isTBMarker = [] := by
  unfold articlesListBlocks
  dsimp only
  split_ifs <;> exact ⟨rfl, rfl⟩

theorem tiTier1Step_shape (acc : List Block × List String) (p : Node × List Node) :
    (tiTier1Step acc p).1 = acc.1
    ∨ ∃ blk, ((∃ lv s, blk = headingText lv s) ∨ (∃ s, blk = plainPara s))
        ∧ (tiTier1Step acc p).1 = acc.1 ++ [blk] := by
  unfold tiTier1Step
  dsimp only
  split_ifs with h1 h2 h3
  · exact Or.inl rfl
  · exact Or.inr ⟨_, Or.inl ⟨_, _, rfl⟩, rfl⟩
  · exact Or.inr ⟨_, Or.inr ⟨_, rfl⟩, rfl⟩
  · exact Or.inl rfl

theorem tiTier1_shape (l : List (Node × List Node)) :
    ∀ acc : List Block × List String,
      ∀ b ∈ (l.foldl tiTier1Step acc).1,
        b ∈ acc.1 ∨ (∃ lv s, b = headingText lv s) ∨ (∃ s, b = plainPara s) := by
  induction l with
  | nil => intro acc b hb; exact Or.inl hb
  | cons p rest ih =>
    intro acc b hb
    rw [List.foldl_cons] at hb
    rcases ih (tiTier1Step acc p) b hb with hmem | hshape
    · rcases tiTier1Step_shape acc p with he | ⟨blk, hblk, he⟩
      · rw [he] at hmem; exact Or.inl hmem
      · rw [he] at hmem
        rcases List.mem_append.mp hmem with h1 | h2
        · exact Or.inl h1
        · simp only [List.mem_singleton] at h2
          subst h2
          exact Or.inr hblk
    · exact Or.inr hshape

theorem tiTier1_markers (el : Node) :
    ∀ b ∈ tiTier1Blocks el, isTIMarker b = false ∧ isTBMarker b = false := by
  intro b hb
  unfold tiTier1Blocks at hb
  rcases tiTier1_shape _ ([], []) b hb with hmem | hshape
  · simp at hmem
  · rcases hshape with ⟨lv, s, rfl⟩ | ⟨s, rfl⟩
    · exact markers_false_headingText lv s
    · exact markers_false_plainPara s

theorem tiTier2Step_shape (acc : List Block × List String) (n : Node) :
    (tiTier2Step acc n).1 = acc.1
    ∨ ∃ s, (tiTier2Step acc n).1 = acc.1 ++ [plainPara s] := by
  unfold tiTier2Step
  dsimp only
  split_ifs
  · exact Or.inr ⟨_, rfl⟩
  · exact Or.inl rfl

theorem tiTier2_shape (l : List Node) :
    ∀ acc : List Block × List String,
      ∀ b ∈ (l.foldl tiTier2Step acc).1, b ∈ acc.1 ∨ (∃ s, b = plainPara s) := by
  induction l with
  | nil => intro acc b hb; exact Or.inl hb
  | cons n rest ih =>
    intro acc b hb
    rw [List.foldl_cons] at hb
    rcases ih (tiTier2Step acc n) b hb with hmem | hshape
    · rcases tiTier2Step_shape acc n with he | ⟨s, he⟩
      · rw [he] at hmem; exact Or.inl hmem
      · rw [he] at hmem
        rcases List.mem_append.mp hmem with h1 | h2
        · exact Or.inl h1
        · simp only [List.mem_singleton] at h2
          subst h2
          exact Or.inr ⟨_, rfl⟩
    · exact Or.inr hshape

theorem tiTier2_markers (el : Node) :
    ∀ b ∈ tiTier2Blocks el, isTIMarker b = false ∧ isTBMarker b = false := by
  intro b hb
  unfold tiTier2Blocks at hb
  rcases tiTier2_shape _ ([], []) b hb with hmem | ⟨s, rfl⟩
  · simp at hmem
  · exact markers_false_plainPara s

theorem textImage_markers (ctx : Ctx) (el : Node) (n : Nat) :
    (textImageBlocks ctx el n).filter isTIMarker = [tiMarkerBlock n]
    ∧ (textImageBlocks ctx el n).filter isTBMarker = [] := by
  unfold textImageBlocks
  dsimp only
  have hcontent : ∀ b ∈ (if ((el.descendantsAnc).filter
        (fun p => p.1.tagName ∈ tiContentTags)).isEmpty
      then tiTier2Blocks el else tiTier1Blocks el),
      isTIMarker b = false ∧ isTBMarker b = false := by
    split_ifs
    · exact tiTier2_markers el
    · exact tiTier1_markers el
  constructor
  · rw [List.filter_append, List.filter_append]
    rw [(filter_markers_nil hcontent).1]
    simp [List.filter_cons, isTIMarker_ti n, isTIMarker_table, isTIMarker_emptyPara]
  · rw [List.filter_append, List.filter_append]
    rw [(filter_markers_nil hcontent).2]
    simp [List.filter_cons, isTBMarker_ti n, isTBMarker_table, isTBMarker_emptyPara]

theorem generic_markers (ctx : Ctx) (el : Node) (nm : String)
    (h : listHasPre tiPat ("[COMPONENT: " ++ nm ++ "]").toList = false) :
    (genericComponentBlocks ctx el nm).filter isTIMarker = []
    ∧ (genericComponentBlocks ctx el nm).filter isTBMarker = [] := by
  unfold genericComponentBlocks
  dsimp only
  constructor
  · simp [List.filter_cons, isTIMarker_comp nm h, isTIMarker_table, isTIMarker_emptyPara]
  · simp [List.filter_cons, isTBMarker_comp nm, isTBMarker_table, isTBMarker_emptyPara]

/-- Marker content of one special-component invocation: exactly one Text
Image marker (numbered with the incremented counter) for the Text Image kind,
no marker otherwise, and the counter update. -/
theorem special_markers (ctx : Ctx) (cnt : Counters) (el : Node) (nm : String)
    (h : noImpostorName (some nm) = true) :
    ((processSpecialComponent ctx cnt el nm).1.filter isTIMarker
       = if nm = "Text Image" then [tiMarkerBlock (cnt.ti + 1)] else [])
    ∧ ((processSpecialComponent ctx cnt el nm).1.filter isTBMarker = [])
    ∧ ((processSpecialComponent ctx cnt el nm).2
       = if nm = "Text Image" then { cnt with ti := cnt.ti + 1 } else cnt) := by
  unfold processSpecialComponent
  by_cases h1 : nm = "Hero Article"
  · subst h1
    rw [if_pos rfl, if_neg (show ¬ ("Hero Article" : String) = "Text Image" by decide)]
    exact ⟨(hero_markers ctx el).1, (hero_markers ctx el).2, rfl⟩
  · by_cases h2 : nm = "Articles List"
    · subst h2
      rw [if_neg (show ¬ ("Articles List" : String) = "Hero Article" by decide),
        if_pos rfl, if_neg (show ¬ ("Articles List" : String) = "Text Image" by decide)]
      exact ⟨(articlesList_markers ctx el).1, (articlesList_markers ctx el).2, rfl⟩
    · by_cases h3 : nm = "Text Image"
      · subst h3
        rw [if_neg (show ¬ ("Text Image" : String) = "Hero Article" by decide),
          if_neg (show ¬ ("Text Image" : String) = "Articles List" by decide),
          if_pos rfl]
        exact ⟨(textImage_markers ctx el (cnt.ti + 1)).1,
          (textImage_markers ctx el (cnt.ti + 1)).2, rfl⟩
      · rw [if_neg h1, if_neg h2, if_neg h3]
        have hp : listHasPre tiPat ("[COMPONENT: " ++ nm ++ "]").toList = false := by
          unfold noImpostorName at h
          dsimp only at h
          rw [decide_eq_false h1, decide_eq_false h2, decide_eq_false h3] at h
          simpa using h
        refine ⟨?_, (generic_markers ctx el nm hp).2, ?_⟩
        · rw [if_neg h3]
          exact (generic_markers ctx el nm hp).1
        · rw [if_neg h3]

theorem range'_concat (s a b : Nat) :
    List.range' s a ++ List.range' (s + a) b = List.range' s (a + b) := by
  have h := List.range'_append s a b 1
  simp only [Nat.one_mul, Nat.add_comm b a] at h
  exact h

theorem processTable_markers_mem (t : Node) :
    ∀ b ∈ processTable t, isTIMarker b = false ∧ isTBMarker b = false := by
  intro b hb
  unfold processTable at hb
  dsimp only at hb
  split_ifs at hb
  · simp at hb
  · simp only [List.mem_singleton] at hb
    subst hb
    exact ⟨rfl, rfl⟩

/-- Assembly helper: a walker result made of the Text Block prelude (present
or not) followed by marker-free blocks satisfies the numbering invariant. -/
theorem pre_case {ctx : Ctx} {cnt : Counters} {n : Node}
    (pre1 : List Block) (cnt1 : Counters) (tail : List Block)
    (hres : processElement ctx cnt n = (pre1 ++ tail, cnt1))
    (hpre : (pre1 = [] ∧ cnt1 = cnt) ∨
            (pre1 = [tbMarkerBlock (cnt.tb + 1)] ∧ cnt1 = ⟨cnt.tb + 1, cnt.ti⟩))
    (htail : ∀ b ∈ tail, isTIMarker b = false ∧ isTBMarker b = false) :
    ∃ k m, (processElement ctx cnt n).2 = ⟨cnt.tb + k, cnt.ti + m⟩
      ∧ (processElement ctx cnt n).1.filter isTIMarker
          = (List.range' (cnt.ti + 1) m).map tiMarkerBlock
      ∧ (processElement ctx cnt n).1.filter isTBMarker
          = (List.range' (cnt.tb + 1) k).map tbMarkerBlock := by
  rcases hpre with ⟨hp1, hp2⟩ | ⟨hp1, hp2⟩ <;> subst hp1 <;> subst hp2
  · refine ⟨0, 0, ?_, ?_, ?_⟩
    · rw [hres]
      rfl
    · rw [hres]
      dsimp only
      rw [List.nil_append, (filter_markers_nil htail).1]
      rfl
    · rw [hres]
      dsimp only
      rw [List.nil_append, (filter_markers_nil htail).2]
      rfl
  · refine ⟨1, 0, ?_, ?_, ?_⟩
    · rw [hres]
      rfl
    · rw [hres]
      dsimp only
      rw [List.singleton_append, List.filter_cons, isTIMarker_tb,
        (filter_markers_nil htail).1]
      rfl
    · rw [hres]
      dsimp only
      rw [List.singleton_append, List.filter_cons, isTBMarker_tb,
        (filter_markers_nil htail).2]
      rfl

/-- The marker-numbering invariant of the walker: starting from any counter
state, the Text Image markers in the emitted blocks are labelled with the
consecutive numbers following the incoming counter, in traversal order, and
likewise the Text Block markers; the final counters record how many of each
were emitted. -/
theorem marker_numbering (ctx : Ctx) : ∀ (cnt : Counters) (n : Node),
    noImpostor n = true →
    ∃ k m, (processElement ctx cnt n).2 = ⟨cnt.tb + k, cnt.ti + m⟩
      ∧ (processElement ctx cnt n).1.filter isTIMarker
          = (List.range' (cnt.ti + 1) m).map tiMarkerBlock
      ∧ (processElement ctx cnt n).1.filter isTBMarker
          = (List.range' (cnt.tb + 1) k).map tbMarkerBlock := by
  intro cnt0 n0
  refine processElement.induct ctx
    (fun cnt n => noImpostor n = true →
      ∃ k m, (processElement ctx cnt n).2 = ⟨cnt.tb + k, cnt.ti + m⟩
        ∧ (processElement ctx cnt n).1.filter isTIMarker
            = (List.range' (cnt.ti + 1) m).map tiMarkerBlock
        ∧ (processElement ctx cnt n).1.filter isTBMarker
            = (List.range' (cnt.tb + 1) k).map tbMarkerBlock)
    (fun cnt l => noImpostorList l = true →
      ∃ k m, (processChildren ctx cnt l).2 = ⟨cnt.tb + k, cnt.ti + m⟩
        ∧ (processChildren ctx cnt l).1.filter isTIMarker
            = (List.range' (cnt.ti + 1) m).map tiMarkerBlock
        ∧ (processChildren ctx cnt l).1.filter isTBMarker
            = (List.range' (cnt.tb + 1) k).map tbMarkerBlock)
    ?_ ?_ ?_ ?_ ?_ ?_ ?_ ?_ ?_ ?_ ?_ ?_ ?_ ?_ cnt0 n0
  -- text node
  · intro cnt s _
    exact pre_case [] cnt [] (by rw [processElement]; rfl) (Or.inl ⟨rfl, rfl⟩) (by simp)
  -- skipped tag
  · intro cnt tag classes attrs ch hskip _
    exact pre_case [] cnt []
      (by rw [processElement]; rw [if_pos hskip]; rfl)
      (Or.inl ⟨rfl, rfl⟩) (by simp)
  -- exclusion class
  · intro cnt tag classes attrs ch hskip hexcl _
    exact pre_case [] cnt []
      (by rw [processElement]; rw [if_neg hskip, if_pos hexcl]; rfl)
      (Or.inl ⟨rfl, rfl⟩) (by simp)
  -- feedback id
  · intro cnt tag classes attrs ch hskip hexcl hid _
    exact pre_case [] cnt []
      (by rw [processElement]; rw [if_neg hskip, if_neg hexcl, if_pos hid]; rfl)
      (Or.inl ⟨rfl, rfl⟩) (by simp)
  -- component dispatch
  · intro cnt tag classes attrs ch hskip hexcl hid nm hnm himp
    have himpName : noImpostorName (some nm) = true := by
      rw [noImpostor] at himp
      rw [hnm] at himp
      simp only [Bool.and_eq_true] at himp
      exact himp.1
    by_cases htb : (targetClasses.all fun c => c ∈ classes) = true
    · have hres : processElement ctx cnt (.elem tag classes attrs ch)
          = (tbMarkerBlock (cnt.tb + 1) ::
              (processSpecialComponent ctx ⟨cnt.tb + 1, cnt.ti⟩
                (.elem tag classes attrs ch) nm).1,
             (processSpecialComponent ctx ⟨cnt.tb + 1, cnt.ti⟩
               (.elem tag classes attrs ch) nm).2) := by
        rw [processElement]
        rw [if_neg hskip, if_neg hexcl, if_neg hid]
        dsimp only
        rw [if_pos htb, hnm]
        rfl
      obtain ⟨hti, htbm, hcnt⟩ :=
        special_markers ctx ⟨cnt.tb + 1, cnt.ti⟩ (.elem tag classes attrs ch) nm himpName
      by_cases hTI : nm = "Text Image"
      · refine ⟨1, 1, ?_, ?_, ?_⟩
        · rw [hres]
          dsimp only
          rw [hcnt, if_pos hTI]
        · rw [hres]
          dsimp only
          rw [List.filter_cons, isTIMarker_tb, hti, if_pos hTI]
          rfl
        · rw [hres]
          dsimp only
          rw [List.filter_cons, isTBMarker_tb, htbm]
          rfl
      · refine ⟨1, 0, ?_, ?_, ?_⟩
        · rw [hres]
          dsimp only
          rw [hcnt, if_neg hTI]
          rfl
        · rw [hres]
          dsimp only
          rw [List.filter_cons, isTIMarker_tb, hti, if_neg hTI]
          rfl
        · rw [hres]
          dsimp only
          rw [List.filter_cons, isTBMarker_tb, htbm]
          rfl
    · have hres : processElement ctx cnt (.elem tag classes attrs ch)
          = ((processSpecialComponent ctx cnt (.elem tag classes attrs ch) nm).1,
             (processSpecialComponent ctx cnt (.elem tag classes attrs ch) nm).2) := by
        rw [processElement]
        rw [if_neg hskip, if_neg hexcl, if_neg hid]
        dsimp only
        rw [if_neg htb, hnm]
        rfl
      obtain ⟨hti, htbm, hcnt⟩ :=
        special_markers ctx cnt (.elem tag classes attrs ch) nm himpName
      by_cases hTI : nm = "Text Image"
      · refine ⟨0, 1, ?_, ?_, ?_⟩
        · rw [hres]
          dsimp only
          rw [hcnt, if_pos hTI]
          rfl
        · rw [hres]
          dsimp only
          rw [hti, if_pos hTI]
          rfl
        · rw [hres]
          dsimp only
          rw [htbm]
          rfl
      · refine ⟨0, 0, ?_, ?_, ?_⟩
        · rw [hres]
          dsimp only
          rw [hcnt, if_neg hTI]
          rfl
        · rw [hres]
          dsimp only
          rw [hti, if_neg hTI]
          rfl
        · rw [hres]
          dsimp only
          rw [htbm]
          rfl
  -- h1
  · intro cnt classes attrs ch hexcl hid hskip hclass _
    by_cases htb : (targetClasses.all fun c => c ∈ classes) = true
    · refine pre_case [tbMarkerBlock (cnt.tb + 1)] ⟨cnt.tb + 1, cnt.ti⟩ []
        ?_ (Or.inr ⟨rfl, rfl⟩) (by simp)
      rw [processElement]
      rw [if_neg hskip, if_neg hexcl, if_neg hid]
      dsimp only
      rw [if_pos htb, hclass]
      dsimp only
      rw [if_pos rfl]
      simp
    · refine pre_case [] cnt [] ?_ (Or.inl ⟨rfl, rfl⟩) (by simp)
      rw [processElement]
      rw [if_neg hskip, if_neg hexcl, if_neg hid]
      dsimp only
      rw [if_neg htb, hclass]
      dsimp only
      rw [if_pos rfl]
      simp
  -- h2-h6
  · intro cnt tag classes attrs ch hskip hexcl hid hclass hne1 htag _
    have htail : ∀ b ∈ [Block.heading (headingLevelOf tag)
        (childRuns (makeAbsolute ctx) (.elem tag classes attrs ch))],
        isTIMarker b = false ∧ isTBMarker b = false := by
      intro b hb
      simp only [List.mem_singleton] at hb
      subst hb
      exact ⟨rfl, rfl⟩
    by_cases htb : (targetClasses.all fun c => c ∈ classes) = true
    · refine pre_case [tbMarkerBlock (cnt.tb + 1)] ⟨cnt.tb + 1, cnt.ti⟩ _
        ?_ (Or.inr ⟨rfl, rfl⟩) htail
      rw [processElement]
      rw [if_neg hskip, if_neg hexcl, if_neg hid]
      dsimp only
      rw [if_pos htb, hclass]
      dsimp only
      rw [if_neg hne1, if_pos htag]
    · refine pre_case [] cnt _ ?_ (Or.inl ⟨rfl, rfl⟩) htail
      rw [processElement]
      rw [if_neg hskip, if_neg hexcl, if_neg hid]
      dsimp only
      rw [if_neg htb, hclass]
      dsimp only
      rw [if_neg hne1, if_pos htag]
  -- p
  · intro cnt classes attrs ch hexcl hid hskip hclass hne1 hnt2 _
    have htail : ∀ b ∈ [Block.para none
        (childRuns (makeAbsolute ctx) (.elem "p" classes attrs ch))],
        isTIMarker b = false ∧ isTBMarker b = false := by
      intro b hb
      simp only [List.mem_singleton] at hb
      subst hb
      exact markers_false_of_sizes
        (childRuns_size (makeAbsolute ctx) (.elem "p" classes attrs ch))
    by_cases htb : (targetClasses.all fun c => c ∈ classes) = true
    · refine pre_case [tbMarkerBlock (cnt.tb + 1)] ⟨cnt.tb + 1, cnt.ti⟩ _
        ?_ (Or.inr ⟨rfl, rfl⟩) htail
      rw [processElement]
      rw [if_neg hskip, if_neg hexcl, if_neg hid]
      dsimp only
      rw [if_pos htb, hclass]
      dsimp only
      rw [if_neg hne1, if_neg hnt2, if_pos rfl]
    · refine pre_case [] cnt _ ?_ (Or.inl ⟨rfl, rfl⟩) htail
      rw [processElement]
      rw [if_neg hskip, if_neg hexcl, if_neg hid]
      dsimp only
      rw [if_neg htb, hclass]
      dsimp only
      rw [if_neg hne1, if_neg hnt2, if_pos rfl]
  -- ul / ol
  · intro cnt tag classes attrs ch hskip hexcl hid hclass hne1 hnt2 hne3 htag _
    have htail : ∀ b ∈ (ch.filter (fun c => c.tagName = "li")).map (fun li =>
        Block.para (some (if tag = "ul" then "List Bullet" else "List Number"))
          (childRuns (makeAbsolute ctx) li)),
        isTIMarker b = false ∧ isTBMarker b = false := by
      intro b hb
      obtain ⟨li, _, rfl⟩ := List.mem_map.mp hb
      exact ⟨rfl, rfl⟩
    by_cases htb : (targetClasses.all fun c => c ∈ classes) = true
    · refine pre_case [tbMarkerBlock (cnt.tb + 1)] ⟨cnt.tb + 1, cnt.ti⟩ _
        ?_ (Or.inr ⟨rfl, rfl⟩) htail
      rw [processElement]
      rw [if_neg hskip, if_neg hexcl, if_neg hid]
      dsimp only
      rw [if_pos htb, hclass]
      dsimp only
      rw [if_neg hne1, if_neg hnt2, if_neg hne3, if_pos htag]
    · refine pre_case [] cnt _ ?_ (Or.inl ⟨rfl, rfl⟩) htail
      rw [processElement]
      rw [if_neg hskip, if_neg hexcl, if_neg hid]
      dsimp only
      rw [if_neg htb, hclass]
      dsimp only
      rw [if_neg hne1, if_neg hnt2, if_neg hne3, if_pos htag]
  -- table
  · intro cnt classes attrs ch hexcl hid hskip hclass hne1 hnt2 hne3 hnt4 _
    by_cases htb : (targetClasses.all fun c => c ∈ classes) = true
    · refine pre_case [tbMarkerBlock (cnt.tb + 1)] ⟨cnt.tb + 1, cnt.ti⟩ _
        ?_ (Or.inr ⟨rfl, rfl⟩) (processTable_markers_mem (.elem "table" classes attrs ch))
      rw [processElement]
      rw [if_neg hskip, if_neg hexcl, if_neg hid]
      dsimp only
      rw [if_pos htb, hclass]
      dsimp only
      rw [if_neg hne1, if_neg hnt2, if_neg hne3, if_neg hnt4, if_pos rfl]
    · refine pre_case [] cnt _ ?_ (Or.inl ⟨rfl, rfl⟩)
        (processTable_markers_mem (.elem "table" classes attrs ch))
      rw [processElement]
      rw [if_neg hskip, if_neg hexcl, if_neg hid]
      dsimp only
      rw [if_neg htb, hclass]
      dsimp only
      rw [if_neg hne1, if_neg hnt2, if_neg hne3, if_neg hnt4, if_pos rfl]
  -- container recursion
  · intro cnt tag classes attrs ch hskip hexcl hid pre hclass hne1 hnt2 hne3 hnt4 hne5 ih himp
    have himpCh : noImpostorList ch = true := by
      rw [noImpostor] at himp
      simp only [Bool.and_eq_true] at himp
      exact himp.2
    have hpredef : pre = (if (targetClasses.all fun c => decide (c ∈ classes)) = true
        then ([tbMarkerBlock (cnt.tb + 1)], ({ tb := cnt.tb + 1, ti := cnt.ti } : Counters))
        else ([], cnt)) := rfl
    rw [hpredef] at ih
    by_cases htb : (targetClasses.all fun c => c ∈ classes) = true
    · rw [if_pos htb] at ih
      dsimp only at ih
      obtain ⟨k, m, hc, hti, htbm⟩ := ih himpCh
      have hres : processElement ctx cnt (.elem tag classes attrs ch)
          = (tbMarkerBlock (cnt.tb + 1) ::
              (processChildren ctx ⟨cnt.tb + 1, cnt.ti⟩ ch).1,
             (processChildren ctx ⟨cnt.tb + 1, cnt.ti⟩ ch).2) := by
        rw [processElement]
        rw [if_neg hskip, if_neg hexcl, if_neg hid]
        dsimp only
        rw [if_pos htb, hclass]
        dsimp only
        rw [if_neg hne1, if_neg hnt2, if_neg hne3, if_neg hnt4, if_neg hne5]
        rfl
      refine ⟨k + 1, m, ?_, ?_, ?_⟩
      · rw [hres]
        dsimp only
        rw [hc]
        congr 1
        omega
      · rw [hres]
        dsimp only
        rw [List.filter_cons, isTIMarker_tb, hti]
        rfl
      · rw [hres]
        dsimp only
        rw [List.filter_cons, isTBMarker_tb, htbm]
        rw [List.range'_succ]
        rfl
    · rw [if_neg htb] at ih
      dsimp only at ih
      obtain ⟨k, m, hc, hti, htbm⟩ := ih himpCh
      have hres : processElement ctx cnt (.elem tag classes attrs ch)
          = ((processChildren ctx cnt ch).1, (processChildren ctx cnt ch).2) := by
        rw [processElement]
        rw [if_neg hskip, if_neg hexcl, if_neg hid]
        dsimp only
        rw [if_neg htb, hclass]
        dsimp only
        rw [if_neg hne1, if_neg hnt2, if_neg hne3, if_neg hnt4, if_neg hne5]
        rfl
      exact ⟨k, m, by rw [hres]; exact hc, by rw [hres]; exact hti,
        by rw [hres]; exact htbm⟩
  -- children: nil
  · intro cnt _
    exact ⟨0, 0, by rw [processChildren]; rfl, by rw [processChildren]; rfl,
      by rw [processChildren]; rfl⟩
  -- children: text fragment
  · intro cnt rest s ih himp
    have himpRest : noImpostorList rest = true := by
      rw [noImpostorList] at himp
      simp only [Bool.and_eq_true] at himp
      exact himp.2
    obtain ⟨k, m, hc, hti, htbm⟩ := ih himpRest
    have hres : processChildren ctx cnt (Node.text s :: rest)
        = ((if (strTrim s).length > 20 then [plainPara (strTrim s)] else []) ++
            (processChildren ctx cnt rest).1,
           (processChildren ctx cnt rest).2) := by
      rw [processChildren]
    have hpre : ((if (strTrim s).length > 20 then [plainPara (strTrim s)] else []) :
        List Block).filter isTIMarker = []
        ∧ ((if (strTrim s).length > 20 then [plainPara (strTrim s)] else []) :
        List Block).filter isTBMarker = [] := by
      split_ifs
      · exact ⟨by simp [List.filter_cons, (markers_false_plainPara (strTrim s)).1],
          by simp [List.filter_cons, (markers_false_plainPara (strTrim s)).2]⟩
      · exact ⟨rfl, rfl⟩
    refine ⟨k, m, ?_, ?_, ?_⟩
    · rw [hres]
      exact hc
    · rw [hres]
      dsimp only
      rw [List.filter_append, hpre.1, List.nil_append]
      exact hti
    · rw [hres]
      dsimp only
      rw [List.filter_append, hpre.2, List.nil_append]
      exact htbm
  -- children: element then rest
  · intro cnt rest tag classes attrs ch r1 ih1 ih2 himp
    have himpPair : noImpostor (Node.elem tag classes attrs ch) = true
        ∧ noImpostorList rest = true := by
      rw [noImpostorList] at himp
      simp only [Bool.and_eq_true] at himp
      exact himp
    have hr1def : r1 = processElement ctx cnt (Node.elem tag classes attrs ch) := rfl
    rw [hr1def] at ih2
    obtain ⟨k1, m1, hc1, hti1, htb1⟩ := ih1 himpPair.1
    rw [hc1] at ih2
    obtain ⟨k2, m2, hc2, hti2, htb2⟩ := ih2 himpPair.2
    dsimp only at hc2 hti2 htb2
    have hres : processChildren ctx cnt (Node.elem tag classes attrs ch :: rest)
        = ((processElement ctx cnt (.elem tag classes attrs ch)).1 ++
            (processChildren ctx ⟨cnt.tb + k1, cnt.ti + m1⟩ rest).1,
           (processChildren ctx ⟨cnt.tb + k1, cnt.ti + m1⟩ rest).2) := by
      rw [processChildren]
      rw [hc1]
    have e1 : cnt.ti + m1 + 1 = cnt.ti + 1 + m1 := by omega
    have e2 : cnt.tb + k1 + 1 = cnt.tb + 1 + k1 := by omega
    rw [e1] at hti2
    rw [e2] at htb2
    refine ⟨k1 + k2, m1 + m2, ?_, ?_, ?_⟩
    · rw [hres]
      dsimp only
      rw [hc2]
      congr 1 <;> omega
    · rw [hres]
      dsimp only
      rw [List.filter_append, hti1, hti2, ← List.map_append, range'_concat]
    · rw [hres]
      dsimp only
      rw [List.filter_append, htb1, htb2, ← List.map_append, range'_concat]

/-- C2: within one extraction call started with fresh counters, the Text Image
markers in the emitted blocks are exactly "Text Image 1", "Text Image 2", ... in
traversal order — the Nth element classified as the Text Image kind produces the
marker numbered N, with no number skipped or repeated — and likewise the Text
Block markers carry the running Text Block count; the final counters equal the
respective numbers of markers emitted. The hypothesis `noImpostor` rules out
trees containing components of a different kind whose humanized class name
collides textually with a marker label (e.g. class `component--text-image-7`,
whose generic marker reads "Text Image 7"); for such trees the property as
stated over block formatting is not faithful to "classified as the Text Image
kind". -/
theorem C2_marker_numbering (ctx : Ctx) (n : Node)
    (himp : noImpostor n = true) :
    ∃ tbN tiN, (processElement ctx ⟨0, 0⟩ n).2 = ⟨tbN, tiN⟩
      ∧ (processElement ctx ⟨0, 0⟩ n).1.filter isTIMarker
          = (List.range' 1 tiN).map tiMarkerBlock
      ∧ (processElement ctx ⟨0, 0⟩ n).1.filter isTBMarker
          = (List.range' 1 tbN).map tbMarkerBlock := by
  obtain ⟨k, m, hc, hti, htbm⟩ := marker_numbering ctx ⟨0, 0⟩ n himp
  refine ⟨k, m, ?_, ?_, ?_⟩
  · rw [hc]
    dsimp only
    congr 1 <;> omega
  · rw [hti]
  · rw [htbm]

theorem C2_witness :
    noImpostor c2Tree = true
    ∧ (∃ tbN tiN, (processElement ctxEx ⟨0, 0⟩ c2Tree).2 = ⟨tbN, tiN⟩
        ∧ (processElement ctxEx ⟨0, 0⟩ c2Tree).1.filter isTIMarker
            = (List.range' 1 tiN).map tiMarkerBlock
        ∧ (processElement ctxEx ⟨0, 0⟩ c2Tree).1.filter isTBMarker
            = (List.range' 1 tbN).map tbMarkerBlock) :=
  ⟨by decide, C2_marker_numbering ctxEx c2Tree (by decide)⟩

end MTV2
